import Mathlib

/-!
The bulk loader of installed-application logs hm15 (`main.go`): a shallow
embedding of the Go program and theorems about it.

Conventions of the embedding.

* A Go `string` is a `List Char` (the text is taken to be valid UTF-8; an
  invalid byte behaves like any character that is neither white space, a
  digit, a sign, a tab nor a comma).
* `strconv.ParseFloat` and the protobuf codec are parameters of the functions
  that call them; `strconv.Atoi`, `strings.Split`, `strings.TrimSpace`,
  `filepath.Split` and `filepath.Join` are modelled after the Go standard
  library (64-bit platform, Unix paths).
* A channel is the sequence of values that go through it; a send appends to
  a trace.
* `float32` values are exact rationals, rounded to nearest-even after every
  operation.
-/

namespace Hm15

/-! ## Strings -/

/-- A Go string, as its sequence of characters. -/
abbrev Str := List Char

/-- The function `unicode.IsSpace`: the Unicode White_Space property. -/
def isSpace (c : Char) : Bool :=
  let n := c.toNat
  (9 ≤ n && n ≤ 13) || n == 32 || n == 0x85 || n == 0xA0 || n == 0x1680 ||
  (0x2000 ≤ n && n ≤ 0x200A) || n == 0x2028 || n == 0x2029 || n == 0x202F ||
  n == 0x205F || n == 0x3000

/-- The function `strings.TrimSpace`: drop leading and trailing white space. -/
def TrimSpace (s : Str) : Str :=
  ((s.dropWhile isSpace).reverse.dropWhile isSpace).reverse

/-- The function `strings.Split(s, sep)` for a one-character separator: the
pieces between the separators, one more than there are separators. -/
def Split (sep : Char) : Str → List Str
  | [] => [[]]
  | c :: cs =>
    if c = sep then [] :: Split sep cs
    else
      match Split sep cs with
      | [] => [[c]]
      | p :: ps => (c :: p) :: ps

/-! ## `strconv.Atoi` and the conversion to `uint32` -/

/-- The value of an ASCII decimal digit. -/
def digitVal (c : Char) : Option Nat :=
  if 48 ≤ c.toNat ∧ c.toNat ≤ 57 then some (c.toNat - 48) else none

/-- The digit loop of `strconv.Atoi`: `n = n*10 + digit`, a syntax error at
the first character that is not a digit. -/
def parseDigits : Str → Nat → Option Nat
  | [], n => some n
  | c :: cs, n =>
    match digitVal c with
    | none => none
    | some d => parseDigits cs (n * 10 + d)

/-- Bits of the Go type `int` (a 64-bit platform). -/
def intSize : Nat := 64

/-- The function `strconv.Atoi`: an optional sign, then at least one decimal
digit; `none` stands for a non-nil error (syntax, or a value out of the range
of `int`). -/
def Atoi (s : Str) : Option Int :=
  match s with
  | [] => none
  | c :: cs =>
    let neg := c = '-'
    let ds := if c = '-' ∨ c = '+' then cs else s
    if ds = [] then none
    else
      match parseDigits ds 0 with
      | none => none
      | some n =>
        let v : Int := if neg then -(n : Int) else (n : Int)
        if -(2 : Int) ^ (intSize - 1) ≤ v ∧ v < (2 : Int) ^ (intSize - 1) then some v
        else none

/-- The conversion `uint32(appId)` of an `int`: the low 32 bits. -/
def uint32 (v : Int) : Nat := (v % (2 : Int) ^ 32).toNat

/-! ## `parseAppsInstalled` -/

/-- The struct `deviceApps`; `F` is the type of `float64` values. -/
structure deviceApps (F : Type) where
  devType : Str
  devId : Str
  lat : F
  lon : F
  apps : List Nat
  deriving DecidableEq, Repr

/-- The errors `parseAppsInstalled` returns. -/
inductive ParseError where
  /-- The error "line have 5 line". -/
  | fieldCount
  /-- The error "unknown device type". -/
  | unknownDeviceType
  /-- The error "device id not found". -/
  | deviceIdNotFound
  /-- The error of `strconv.ParseFloat` on the given field. -/
  | badFloat (field : Str)
  deriving DecidableEq, Repr

/-- The loop over `strings.Split(lineParts[4], ",")`: a token `Atoi` rejects is
skipped, the others are appended after conversion to `uint32`. -/
def parseApps (field : Str) : List Nat :=
  (Split ',' field).foldl
    (fun apps rawApp =>
      match Atoi rawApp with
      | none => apps
      | some appId => apps ++ [uint32 appId])
    []

/-- The function `parseAppsInstalled`; `ParseFloat s` is
`strconv.ParseFloat(s, 64)`, `none` for a non-nil error. -/
def parseAppsInstalled {F : Type} (ParseFloat : Str → Option F) (line : Str) :
    Except ParseError (deviceApps F) :=
  match Split '\t' (TrimSpace line) with
  | [devType, devId, p2, p3, p4] =>
    if devType.length = 0 then .error .unknownDeviceType
    else if devId.length = 0 then .error .deviceIdNotFound
    else
      match ParseFloat p2 with
      | none => .error (.badFloat p2)
      | some lat =>
        match ParseFloat p3 with
        | none => .error (.badFloat p3)
        | some lon =>
          .ok { devType := devType, devId := devId, lat := lat, lon := lon,
                apps := parseApps p4 }
  | _ => .error .fieldCount

/-- A fragment of `strconv.ParseFloat(s, 64)` used to evaluate examples: a
string of one to fifteen decimal digits is accepted and denotes its integer
value, which is below `2^53` and therefore a `float64` exactly; every other
string is left out of the fragment (`none`). -/
def decimalFloat (s : Str) : Option Nat :=
  if s = [] ∨ 15 < s.length then none else parseDigits s 0


/-! ## `float32` -/

/-- Round a rational to the nearest integer, a tie going to the even one. -/
def roundNearestEven (x : ℚ) : ℤ :=
  let f := ⌊x⌋
  if 2 * (x - f) < 1 then f
  else if 1 < 2 * (x - f) then f + 1
  else if f % 2 = 0 then f else f + 1

/-- The values a `float32` takes in this program: a non-negative finite value
(an exact rational), `+Inf` or `NaN`. (The counters start at zero and are only
added to and divided, so no negative value arises.) -/
inductive Float32 where
  | finite (q : ℚ)
  | inf
  | nan
  deriving DecidableEq, Repr

namespace Float32

/-- The spacing of `float32` values around `x ≥ 0`: 24 significant bits, the
exponent not below `-126` (subnormal numbers below). -/
def quantum (x : ℚ) : ℚ := 2 ^ (max (Int.log 2 x) (-126) - 23)

/-- The multiple of the spacing nearest to `x ≥ 0`, a tie going to the even
significand (IEEE 754 round-to-nearest-even). -/
def nearest (x : ℚ) : ℚ := roundNearestEven (x / quantum x) * quantum x

/-- Rounding of an exact non-negative value to `float32`, with overflow to
`+Inf`: what every `float32` operation and constant conversion applies to its
exact result. -/
def ofRat (x : ℚ) : Float32 :=
  if 2 ^ 128 ≤ nearest x then inf else finite (nearest x)

/-- Addition of `float32` values. -/
def add : Float32 → Float32 → Float32
  | finite a, finite b => ofRat (a + b)
  | nan, _ => nan
  | _, nan => nan
  | _, _ => inf

/-- Division of `float32` values: `0/0` and `Inf/Inf` are `NaN`, `x/0` is
`+Inf` for `x > 0`. -/
def div : Float32 → Float32 → Float32
  | finite a, finite b => if b = 0 then (if a = 0 then nan else inf) else ofRat (a / b)
  | finite _, inf => finite 0
  | inf, finite _ => inf
  | _, _ => nan

/-- The comparison `<` of `float32` values: false whenever an operand is `NaN`. -/
def lt : Float32 → Float32 → Bool
  | finite a, finite b => a < b
  | finite _, inf => true
  | _, _ => false

end Float32

/-! ## `fillChannelAppDevice` -/

/-- The untyped constant `normalErrorRate = 0.01`. -/
def normalErrorRate : ℚ := 1 / 100

/-- The lines `fillChannelAppDevice` logs. -/
inductive ParserLog where
  /-- Log "Error ecur when parse app. %s". -/
  | parseError (err : ParseError)
  /-- Log "Acceptable error rate %f. Successful load". -/
  | acceptable (errRate : Float32)
  /-- Log "High error rate (%f > %f). Failed load". -/
  | highErrorRate (errRate : Float32)
  deriving DecidableEq, Repr

/-- The state of `fillChannelAppDevice`: the records sent on
`channelAppDevice` so far, the two counters, and the log. -/
structure ParserState (F : Type) where
  sent : List (deviceApps F)
  failedLine : Float32
  successLine : Float32
  log : List ParserLog

/-- One iteration of `for line := range channel`. -/
def fillStep {F : Type} (ParseFloat : Str → Option F) (st : ParserState F) (line : Str) :
    ParserState F :=
  match parseAppsInstalled ParseFloat line with
  | .ok apps =>
    { st with sent := st.sent ++ [apps],
              successLine := st.successLine.add (Float32.ofRat 1) }
  | .error err =>
    { st with log := st.log ++ [.parseError err],
              failedLine := st.failedLine.add (Float32.ofRat 1) }

/-- The lines after the loop of `fillChannelAppDevice`: the error rate of the
two counters and the verdict logged for it. -/
def verdict (failedLine successLine : Float32) : ParserLog :=
  let total := failedLine.add successLine
  let errRate := failedLine.div total
  if errRate.lt (Float32.ofRat normalErrorRate) then .acceptable errRate
  else .highErrorRate errRate

/-- The loop of `fillChannelAppDevice` on the lines `channel` delivers before
it is closed. -/
def fillLoop {F : Type} (ParseFloat : Str → Option F) (channel : List Str) : ParserState F :=
  channel.foldl (fillStep ParseFloat)
    { sent := [], failedLine := .finite 0, successLine := .finite 0, log := [] }

/-- The function `fillChannelAppDevice`, run on the lines `channel` delivers
before it is closed. -/
def fillChannelAppDevice {F : Type} (ParseFloat : Str → Option F) (channel : List Str) :
    ParserState F :=
  let st := fillLoop ParseFloat channel
  { st with log := st.log ++ [verdict st.failedLine st.successLine] }

/-- The number of lines of `channel` on which `parseAppsInstalled` succeeds. -/
def parsedCount {F : Type} (ParseFloat : Str → Option F) (channel : List Str) : Nat :=
  channel.countP (fun line => (parseAppsInstalled ParseFloat line).toBool)

/-- The number of lines of `channel` on which `parseAppsInstalled` fails. -/
def failedCount {F : Type} (ParseFloat : Str → Option F) (channel : List Str) : Nat :=
  channel.countP (fun line => !(parseAppsInstalled ParseFloat line).toBool)

namespace ParserLog

/-- Is the line the "acceptable" verdict. -/
def isAcceptable : ParserLog → Bool
  | acceptable _ => true
  | _ => false

/-- Is the line the "high error rate" verdict. -/
def isHighErrorRate : ParserLog → Bool
  | highErrorRate _ => true
  | _ => false

end ParserLog

/-- The records of the lines of `channel` on which `parseAppsInstalled`
succeeds, in order. -/
def parsedRecords {F : Type} (ParseFloat : Str → Option F) (channel : List Str) :
    List (deviceApps F) :=
  channel.filterMap (fun line => (parseAppsInstalled ParseFloat line).toOption)


/-! ## `memcSetWithRetry` and `setToMemc` -/

/-- A serialized payload. -/
abbrev Bytes := List Nat

/-- The struct `Config`; `C` is the type of `*memcache.Client` handles and
`clients` the lookup in the map. -/
structure Config (C : Type) where
  clients : Str → Option C
  workers : Int
  retry : Int
  duration : Int
  dryRun : Bool

/-- What a writer worker does that is visible outside it: log lines, `Set`
calls on a store client and sleeps. -/
inductive WriterEvent (F E C : Type) where
  /-- Log "Unknown device type". -/
  | logUnknownDevice
  /-- Log "Error ecure when marshal %s". -/
  | logMarshalError (err : E)
  /-- Log "%v -> %v" with the key and the record. -/
  | logDryRun (key : Str) (app : deviceApps F)
  /-- The call `memcClient.Set` on an item with the key and the value. -/
  | set (client : C) (key : Str) (value : Bytes)
  /-- The call `time.Sleep(time.Duration(config.duration) * time.Second)`. -/
  | sleep (seconds : Int)
  /-- Log "error connect to Memcached: %s". -/
  | logMemcError (devType : Str)
  /-- Log "%s" with the error of the last attempt. -/
  | logError (err : E)

namespace WriterEvent

/-- Is the event a `Set` call. -/
def isSet {F E C : Type} : WriterEvent F E C → Bool
  | set _ _ _ => true
  | _ => false

/-- Is the event a sleep. -/
def isSleep {F E C : Type} : WriterEvent F E C → Bool
  | sleep _ => true
  | _ => false

/-- Is the event a log line. -/
def isLog {F E C : Type} : WriterEvent F E C → Bool
  | set _ _ _ => false
  | sleep _ => false
  | _ => true

end WriterEvent

/-- The loop `for attempt := 0; attempt < config.retry; attempt++` of
`memcSetWithRetry`, with `remaining = config.retry - attempt` iterations left.
`SetResult i` is the error of the `i`-th `Set` call the worker makes (`none`
for nil); the result is the value of `err` and the events of the loop. -/
def retryLoop {F E C : Type} (cfg : Config C) (SetResult : Nat → Option E)
    (memcClient : C) (key : Str) (value : Bytes) :
    (remaining : Nat) → (calls : Nat) → (err : Option E) → Option E × List (WriterEvent F E C)
  | 0, _, err => (err, [])
  | remaining + 1, calls, _ =>
    match SetResult calls with
    | some e =>
      let r := retryLoop cfg SetResult memcClient key value remaining (calls + 1) (some e)
      (r.1, .set memcClient key value :: .sleep cfg.duration :: r.2)
    | none => (none, [.set memcClient key value])

/-- The function `memcSetWithRetry`; `calls` is the number of `Set` calls the
worker made before. -/
def memcSetWithRetry {F E C : Type} (cfg : Config C) (SetResult : Nat → Option E)
    (calls : Nat) (key : Str) (value : Bytes) (memcClient : C) :
    Option E × List (WriterEvent F E C) :=
  retryLoop cfg SetResult memcClient key value cfg.retry.toNat calls none

/-- The body of the loop of `setToMemc` for one record: the events, and the
number of `Set` calls made so far. `Marshal` is `proto.Marshal` on the
`UserApps` message built from the record. -/
def setToMemcStep {F E C : Type} (cfg : Config C)
    (Marshal : F → F → List Nat → Except E Bytes) (SetResult : Nat → Option E)
    (calls : Nat) (app : deviceApps F) : Nat × List (WriterEvent F E C) :=
  match cfg.clients app.devType with
  | none => (calls, [.logUnknownDevice])
  | some memcClient =>
    let key := app.devType ++ [':'] ++ app.devId
    let packed : Bytes × List (WriterEvent F E C) :=
      match Marshal app.lat app.lon app.apps with
      | .ok bytes => (bytes, [])
      | .error err => ([], [.logMarshalError err])
    if cfg.dryRun then (calls, packed.2 ++ [.logDryRun key app])
    else
      let r := memcSetWithRetry cfg SetResult calls key packed.1 memcClient
      let calls' := calls + (r.2.filter WriterEvent.isSet).length
      match r.1 with
      | some err => (calls', packed.2 ++ r.2 ++ [.logMemcError app.devType, .logError err])
      | none => (calls', packed.2 ++ r.2)

/-- The function `setToMemc`, run on the records the worker receives from
`channelAppDevice` before it is closed. -/
def setToMemc {F E C : Type} (cfg : Config C)
    (Marshal : F → F → List Nat → Except E Bytes) (SetResult : Nat → Option E) :
    (calls : Nat) → List (deviceApps F) → List (WriterEvent F E C)
  | _, [] => []
  | calls, app :: rest =>
    let r := setToMemcStep cfg Marshal SetResult calls app
    r.2 ++ setToMemc cfg Marshal SetResult r.1 rest

/-! ## `readFileToChan` and `dotRenameFile` -/

/-- The error that ends a stream: `io.EOF`, or any other error of the gzip
reader (a truncated or corrupt member). -/
inductive ReadError where
  | eof
  | other
  deriving DecidableEq, Repr

/-- What the file name passed to `readFileToChan` leads to: `os.Open` fails,
`gzip.NewReader` fails, or a stream that delivers the decompressed `data` and
then ends with `err`. -/
inductive FileInput where
  | openFails
  | gzipFails
  | stream (data : Str) (err : ReadError)
  deriving DecidableEq, Repr

/-- The call `reader.ReadString('\n')` with a nil error: the text up to and
including the first newline of the data not yet read, and the rest. `none`
when the rest of the data has no newline: the call then returns the rest
together with the error that ends the stream. -/
def ReadString : Str → Option (Str × Str)
  | [] => none
  | c :: cs =>
    if c = '\n' then some ([c], cs)
    else
      match ReadString cs with
      | none => none
      | some (line, rest) => some (c :: line, rest)

/-- What an ingestion task does that is visible outside it. -/
inductive IngestEvent where
  /-- Log "Read file %s". -/
  | logReadFile (filePath : Str)
  /-- Fatal "Can't open file %s. %s": the process exits. -/
  | fatalOpen (filePath : Str)
  /-- Fatal "Can't open gzip file %s. %s": the process exits. -/
  | fatalGzip (filePath : Str)
  /-- The send `output <- line`. -/
  | send (line : Str)
  /-- The call `fmt.Println(err)` for a read error that is not `io.EOF`. -/
  | printError
  /-- Log "%d lines read from %s". -/
  | logLinesRead (count : Nat) (filePath : Str)
  /-- The call `os.Rename(oldpath, newpath)`. -/
  | rename (oldpath newpath : Str)
  /-- Log "Cant rename file %s, err = %s". -/
  | logCantRename (filePath : Str)
  deriving DecidableEq, Repr

/-- How a function ended: it returned, or `log.Fatalf` ended the process. -/
inductive Ending where
  | returned
  | fatal
  deriving DecidableEq, Repr

/-- The branch `if err != nil` of the loop of `readFileToChan`: at `io.EOF` the
loop is left and the line count logged, at another error the error is printed
and the function returns. The text read with the error is not used. -/
def readEnd (filePath : Str) (err : ReadError) (count : Nat) : List IngestEvent :=
  match err with
  | .eof => [.logLinesRead count filePath]
  | .other => [.printError]

/-- The loop `for { line, err := reader.ReadString('\n') ... }` of
`readFileToChan` on the data not yet read, `count` lines sent so far. `fuel`
bounds the number of iterations; `none` when it runs out. -/
def readLoop (filePath : Str) (err : ReadError) :
    (fuel : Nat) → (data : Str) → (count : Nat) → Option (List IngestEvent)
  | 0, _, _ => none
  | fuel + 1, data, count =>
    match ReadString data with
    | none => some (readEnd filePath err count)
    | some (line, rest) =>
      if line.length > 0 then
        (readLoop filePath err fuel rest (count + 1)).map (fun evs => .send line :: evs)
      else readLoop filePath err fuel rest count

/-- The function `readFileToChan`: its events and how it ended. Every
iteration but the last consumes at least one character, so the fuel
`data.length + 1` is enough. -/
def readFileToChan (filePath : Str) (input : FileInput) : Option (List IngestEvent × Ending) :=
  match input with
  | .openFails => some ([.logReadFile filePath, .fatalOpen filePath], .fatal)
  | .gzipFails => some ([.logReadFile filePath, .fatalGzip filePath], .fatal)
  | .stream data err =>
    (readLoop filePath err (data.length + 1) data 0).map
      (fun evs => (.logReadFile filePath :: evs, .returned))

/-- The function `filepath.Split` (Unix): the path up to and including the
last slash, and what follows it. -/
def filepathSplit (path : Str) : Str × Str :=
  let file := (path.reverse.takeWhile (fun c => c != '/')).reverse
  (path.take (path.length - file.length), file)

/-- The element loop of `filepath.Clean` (Unix) on the elements between
slashes, `out` holding the elements kept so far, last first: an empty element
and `.` are dropped, `..` removes the element before it, or is kept at the
start of a path that is not rooted. -/
def cleanElems (rooted : Bool) : List Str → List Str → List Str
  | [], out => out.reverse
  | e :: es, out =>
    if e = [] ∨ e = ['.'] then cleanElems rooted es out
    else if e = ['.', '.'] then
      match out with
      | top :: below =>
        if top = ['.', '.'] then cleanElems rooted es (e :: out)
        else cleanElems rooted es below
      | [] => if rooted then cleanElems rooted es out else cleanElems rooted es (e :: out)
    else cleanElems rooted es (e :: out)

/-- The function `filepath.Clean` (Unix). -/
def filepathClean (path : Str) : Str :=
  let rooted := path.head? = some '/'
  let body := ['/'].intercalate (cleanElems rooted (Split '/' path) [])
  let out := if rooted then '/' :: body else body
  if out = [] then ['.'] else out

/-- The call `filepath.Join(dir, name)` for a non-empty `name` (Unix). -/
def filepathJoin (dir name : Str) : Str :=
  if dir = [] then filepathClean name else filepathClean (dir ++ ['/'] ++ name)

/-- The function `dotRenameFile`; `renameFails` tells whether `os.Rename`
returns an error. -/
def dotRenameFile (renameFails : Bool) (filePath : Str) (dryRun : Bool) : List IngestEvent :=
  let (path, name) := filepathSplit filePath
  if dryRun = false then
    .rename filePath (filepathJoin path ('.' :: name)) ::
      (if renameFails then [.logCantRename filePath] else [])
  else []

/-- The goroutine `main` starts for a file: `readFileToChan(f, c)`, then
`dotRenameFile(f, dryRun)` unless the process has exited, then `wp.Done()`. -/
def ingestTask (renameFails : Bool) (filePath : Str) (dryRun : Bool) (input : FileInput) :
    Option (List IngestEvent × Ending) :=
  match readFileToChan filePath input with
  | none => none
  | some (evs, .fatal) => some (evs, .fatal)
  | some (evs, .returned) => some (evs ++ dotRenameFile renameFails filePath dryRun, .returned)

/-- The non-empty lines of a text: the pieces between newlines that are not
empty, a last piece without a newline after it included. -/
def nonEmptyLines (data : Str) : List Str :=
  (Split '\n' data).filter (fun l => l ≠ [])

/-! ## Configuration and stand-ins used in examples -/

/-- The function `initConfig`: a client per address, each with the timeout. A
client handle is its address and timeout. -/
def initConfig (addresses : List (Str × Str)) (timeout workers retry duration : Int)
    (dryRun : Bool) : Config (Str × Int) :=
  { clients := fun name => (addresses.lookup name).map (fun address => (address, timeout)),
    workers := workers,
    retry := retry,
    duration := duration,
    dryRun := dryRun }

/-- The map `addresses` of `main` with the default values of the flags. -/
def defaultAddresses : List (Str × Str) :=
  [("idfa".toList, "127.0.0.1:33013".toList), ("gaid".toList, "127.0.0.1:33014".toList),
   ("adid".toList, "127.0.0.1:33015".toList), ("dvid".toList, "127.0.0.1:33016".toList)]

/-- The configuration of `main` with the default values of the flags, and the
given retry count and dry-run flag. -/
def defaultConfig (retry : Int) (dryRun : Bool) : Config (Str × Int) :=
  initConfig defaultAddresses 500 4 retry 3 dryRun

/-- A stand-in for the protobuf codec, used to evaluate examples: it never
fails, and lists the three fields. -/
def listMarshal {E : Type} (lat lon : Nat) (apps : List Nat) : Except E Bytes :=
  .ok (lat :: lon :: apps)


/-! ## The goroutines of `main` and `processFile`

The program as a transition system: every goroutine is at one of its blocking
points, and a step is one goroutine (or, for an unbuffered channel, a sender
together with a receiver) moving to its next one. Both channels are made with
`make(chan T)`, without a buffer. No goroutine moves after `main` has
returned, since the process is over then. -/

/-- Where the goroutine started for a file stands. -/
inductive IngestPc where
  /-- In `readFileToChan`, with the lines it has yet to send. -/
  | sending (lines : List Str)
  /-- After `dotRenameFile` and `wp.Done()`. -/
  | done
  deriving DecidableEq, Repr

/-- Where `main` stands. -/
inductive MainPc where
  /-- At `wp.Wait()`. -/
  | waiting
  /-- Past `wp.Wait()`, before `close(lineChan)`. -/
  | closing
  /-- Past `close(lineChan)`, before the log of the execution time. -/
  | reporting
  /-- After the log of the execution time: `main` has returned. -/
  | exited
  deriving DecidableEq, Repr

/-- Where `fillChannelAppDevice` stands. -/
inductive ParserPc (F : Type) where
  /-- At `for line := range channel`. -/
  | receiving
  /-- At `channelAppDevice <- apps`, with the record to send. -/
  | sending (apps : deviceApps F)
  /-- After the verdict is logged: the function has returned. -/
  | returned
  deriving DecidableEq, Repr

/-- Where a `setToMemc` worker stands. -/
inductive WorkerPc (F : Type) where
  /-- At `for app := range channelAppDevice`. -/
  | receiving
  /-- In the body of the loop, with the record received. -/
  | handling (app : deviceApps F)
  /-- After the loop: `wg.Done()` has run. -/
  | done
  deriving DecidableEq, Repr

/-- The state of a run. `handled` lists the records whose loop body a worker
has finished. -/
structure Run (F : Type) where
  ingest : List IngestPc
  main : MainPc
  parser : ParserPc F
  workers : List (WorkerPc F)
  lineChanClosed : Bool
  recordChanClosed : Bool
  handled : List (deviceApps F)
  deriving DecidableEq, Repr

/-- The steps of a run. -/
inductive Action where
  /-- The goroutine of file `i` sends its next line and the parser receives it. -/
  | sendLine (i : Nat)
  /-- The goroutine of file `i` leaves `readFileToChan`, renames, calls `wp.Done()`. -/
  | ingestDone (i : Nat)
  /-- The call `wp.Wait()` returns in `main`. -/
  | mainWait
  /-- The call `close(lineChan)` in `main`. -/
  | mainClose
  /-- The log of the execution time, and the return of `main`. -/
  | mainReturn
  /-- The parser sends its record and worker `j` receives it. -/
  | deliver (j : Nat)
  /-- The parser finds `lineChan` closed, logs the verdict and returns. -/
  | parserReturn
  /-- Worker `j` finishes the body of its loop. -/
  | handle (j : Nat)
  /-- Worker `j` finds `channelAppDevice` closed and leaves its loop. -/
  | workerReturn (j : Nat)
  deriving DecidableEq, Repr

/-- The state with `main` at `wp.Wait()` and every goroutine started: one per
file, the parser and `workers` workers, each at the start of its loop, both
channels open. -/
def Run.init {F : Type} (files : List (List Str)) (workers : Nat) : Run F :=
  { ingest := files.map IngestPc.sending,
    main := .waiting,
    parser := .receiving,
    workers := List.replicate workers .receiving,
    lineChanClosed := false,
    recordChanClosed := false,
    handled := [] }

/-- One step: the state after the action, `none` when the action is not
possible in the state. The source has no `close(channelAppDevice)`, so no
action sets `recordChanClosed`. -/
def Run.step {F : Type} (ParseFloat : Str → Option F) (s : Run F) : Action → Option (Run F)
  | .sendLine i =>
    match s.main, s.ingest.get? i, s.parser with
    | .exited, _, _ => none
    | _, some (.sending (line :: rest)), .receiving =>
      some { s with
        ingest := s.ingest.set i (.sending rest),
        parser :=
          match parseAppsInstalled ParseFloat line with
          | .ok apps => .sending apps
          | .error _ => .receiving }
    | _, _, _ => none
  | .ingestDone i =>
    match s.main, s.ingest.get? i with
    | .exited, _ => none
    | _, some (.sending []) => some { s with ingest := s.ingest.set i .done }
    | _, _ => none
  | .mainWait =>
    match s.main with
    | .waiting => if s.ingest.all (fun p => p = .done) then some { s with main := .closing } else none
    | _ => none
  | .mainClose =>
    match s.main with
    | .closing => some { s with main := .reporting, lineChanClosed := true }
    | _ => none
  | .mainReturn =>
    match s.main with
    | .reporting => some { s with main := .exited }
    | _ => none
  | .deliver j =>
    match s.main, s.parser, s.workers.get? j with
    | .exited, _, _ => none
    | _, .sending apps, some .receiving =>
      some { s with parser := .receiving, workers := s.workers.set j (.handling apps) }
    | _, _, _ => none
  | .parserReturn =>
    match s.main, s.parser with
    | .exited, _ => none
    | _, .receiving => if s.lineChanClosed then some { s with parser := .returned } else none
    | _, _ => none
  | .handle j =>
    match s.main, s.workers.get? j with
    | .exited, _ => none
    | _, some (.handling app) =>
      some { s with workers := s.workers.set j .receiving, handled := s.handled ++ [app] }
    | _, _ => none
  | .workerReturn j =>
    match s.main, s.workers.get? j with
    | .exited, _ => none
    | _, some .receiving =>
      if s.recordChanClosed then some { s with workers := s.workers.set j .done } else none
    | _, _ => none

/-- The state after a sequence of actions, `none` when one of them is not
possible. -/
def Run.exec {F : Type} (ParseFloat : Str → Option F) (s : Run F) : List Action → Option (Run F)
  | [] => some s
  | a :: as =>
    match s.step ParseFloat a with
    | none => none
    | some s' => Run.exec ParseFloat s' as


/-- The newline-terminated lines of a text, each with its newline, empty lines
included; the text after the last newline is not among them. -/
def terminatedLines (data : Str) : List Str :=
  ((Split '\n' data).dropLast).map (fun l => l ++ ['\n'])


/-! ## Lemmas on `parseAppsInstalled` -/

theorem parseApps_foldl (toks : List Str) (acc : List Nat) :
    toks.foldl
      (fun apps rawApp =>
        match Atoi rawApp with
        | none => apps
        | some appId => apps ++ [uint32 appId])
      acc = acc ++ (toks.filterMap Atoi).map uint32 := by
  induction toks generalizing acc with
  | nil => simp
  | cons t ts ih =>
    simp only [List.foldl_cons]
    rw [ih]
    cases h : Atoi t <;> simp [List.filterMap_cons, h]

theorem parseApps_eq (field : Str) :
    parseApps field = ((Split ',' field).filterMap Atoi).map uint32 := by
  unfold parseApps
  rw [parseApps_foldl]
  simp

theorem uint32_lt (v : Int) : uint32 v < 2 ^ 32 := by
  unfold uint32
  have h1 : 0 ≤ v % (2 : Int) ^ 32 := Int.emod_nonneg _ (by norm_num)
  have h2 : v % (2 : Int) ^ 32 < (2 : Int) ^ 32 := Int.emod_lt_of_pos _ (by norm_num)
  omega

theorem uint32_of_inRange (v : Int) (h0 : 0 ≤ v) (h1 : v < 2 ^ 32) : (uint32 v : Int) = v := by
  unfold uint32
  rw [Int.emod_eq_of_lt h0 h1]
  omega

theorem parseAppsInstalled_fields {F : Type} (ParseFloat : Str → Option F) (line : Str)
    (f1 f2 f3 f4 f5 : Str) (hsplit : Split '\t' (TrimSpace line) = [f1, f2, f3, f4, f5]) :
    parseAppsInstalled ParseFloat line =
      if f1.length = 0 then .error .unknownDeviceType
      else if f2.length = 0 then .error .deviceIdNotFound
      else
        match ParseFloat f3 with
        | none => .error (.badFloat f3)
        | some lat =>
          match ParseFloat f4 with
          | none => .error (.badFloat f4)
          | some lon =>
            .ok { devType := f1, devId := f2, lat := lat, lon := lon, apps := parseApps f5 } := by
  unfold parseAppsInstalled
  rw [hsplit]

theorem parseAppsInstalled_fieldCount {F : Type} (ParseFloat : Str → Option F) (line : Str)
    (h : (Split '\t' (TrimSpace line)).length ≠ 5) :
    parseAppsInstalled ParseFloat line = .error .fieldCount := by
  unfold parseAppsInstalled
  split
  · next heq => rw [heq] at h; simp at h
  · rfl

theorem parseAppsInstalled_ok_inv {F : Type} (ParseFloat : Str → Option F) (line : Str)
    (r : deviceApps F) (h : parseAppsInstalled ParseFloat line = .ok r) :
    ∃ f1 f2 f3 f4 f5, Split '\t' (TrimSpace line) = [f1, f2, f3, f4, f5] ∧
      f1 ≠ [] ∧ f2 ≠ [] ∧ ParseFloat f3 = some r.lat ∧ ParseFloat f4 = some r.lon ∧
      r.devType = f1 ∧ r.devId = f2 ∧ r.apps = parseApps f5 := by
  by_cases hlen : (Split '\t' (TrimSpace line)).length = 5
  · match hs : Split '\t' (TrimSpace line), hlen with
    | [f1, f2, f3, f4, f5], _ =>
      refine ⟨f1, f2, f3, f4, f5, rfl, ?_⟩
      rw [parseAppsInstalled_fields ParseFloat line f1 f2 f3 f4 f5 hs] at h
      split_ifs at h with h1 h2
      cases h3 : ParseFloat f3 with
      | none => simp [h3] at h
      | some lat =>
        cases h4 : ParseFloat f4 with
        | none => simp [h3, h4] at h
        | some lon =>
          simp only [h3, h4] at h
          injection h with h
          subst h
          refine ⟨?_, ?_, rfl, rfl, rfl, rfl, rfl⟩
          · intro hh; exact h1 (by simp [hh])
          · intro hh; exact h2 (by simp [hh])
  · rw [parseAppsInstalled_fieldCount ParseFloat line hlen] at h
    cases h

/-! ## Lemmas on rounding -/

theorem floor_le_roundNearestEven (x : ℚ) : ⌊x⌋ ≤ roundNearestEven x := by
  unfold roundNearestEven
  simp only []
  split_ifs <;> omega

theorem roundNearestEven_le_floor_succ (x : ℚ) : roundNearestEven x ≤ ⌊x⌋ + 1 := by
  unfold roundNearestEven
  simp only []
  split_ifs <;> omega

theorem roundNearestEven_mono {x y : ℚ} (h : x ≤ y) :
    roundNearestEven x ≤ roundNearestEven y := by
  have hf : ⌊x⌋ ≤ ⌊y⌋ := Int.floor_mono h
  rcases hf.lt_or_eq with hlt | heq
  · calc roundNearestEven x ≤ ⌊x⌋ + 1 := roundNearestEven_le_floor_succ x
      _ ≤ ⌊y⌋ := hlt
      _ ≤ roundNearestEven y := floor_le_roundNearestEven y
  · unfold roundNearestEven
    simp only []
    rw [heq]
    split_ifs <;> first | omega | (exfalso; linarith)

theorem roundNearestEven_intCast (z : ℤ) : roundNearestEven (z : ℚ) = z := by
  unfold roundNearestEven
  simp

theorem roundNearestEven_of_near (x : ℚ) (m : ℤ) (h1 : (m : ℚ) - 1 / 2 < x)
    (h2 : x < m + 1 / 2) : roundNearestEven x = m := by
  unfold roundNearestEven
  simp only []
  rcases le_or_lt (m : ℚ) x with hle | hlt
  · have hf : ⌊x⌋ = m := by
      rw [Int.floor_eq_iff]
      constructor
      · exact hle
      · linarith
    rw [hf]
    rw [if_pos (by linarith)]
  · have hf : ⌊x⌋ = m - 1 := by
      rw [Int.floor_eq_iff]
      push_cast
      constructor <;> linarith
    rw [hf]
    push_cast
    rw [if_neg (by linarith), if_pos (by linarith)]
    omega

theorem roundNearestEven_tie_even (m : ℤ) (hm : m % 2 = 0) :
    roundNearestEven ((m : ℚ) + 1 / 2) = m := by
  unfold roundNearestEven
  simp only []
  have hf : ⌊(m : ℚ) + 1 / 2⌋ = m := by
    rw [Int.floor_eq_iff]
    constructor <;> linarith
  rw [hf, if_neg (by linarith), if_neg (by linarith), if_pos hm]

namespace Float32

theorem quantum_pos (x : ℚ) : 0 < quantum x := by
  unfold quantum
  positivity

theorem log_of_binade (x : ℚ) (e : ℤ) (hlo : (2 : ℚ) ^ e ≤ x) (hhi : x < (2 : ℚ) ^ (e + 1)) :
    Int.log 2 x = e := by
  have hx : 0 < x := lt_of_lt_of_le (by positivity) hlo
  have h1 : e ≤ Int.log 2 x := by
    have := (Int.zpow_le_iff_le_log (b := 2) (by norm_num) (x := e) hx).mp (by exact_mod_cast hlo)
    exact this
  have h2 : Int.log 2 x < e + 1 := by
    have := (Int.lt_zpow_iff_log_lt (b := 2) (by norm_num) (x := e + 1) hx).mp (by exact_mod_cast hhi)
    exact this
  omega

theorem nearest_of_binade (x : ℚ) (e : ℤ) (he : -126 ≤ e) (hlo : (2 : ℚ) ^ e ≤ x)
    (hhi : x < (2 : ℚ) ^ (e + 1)) :
    nearest x = roundNearestEven (x / 2 ^ (e - 23)) * 2 ^ (e - 23) := by
  unfold nearest quantum
  rw [log_of_binade x e hlo hhi, max_eq_left he]


theorem nearest_zero : nearest 0 = 0 := by
  unfold nearest
  simp [roundNearestEven]

theorem nearest_nonneg (x : ℚ) (hx : 0 ≤ x) : 0 ≤ nearest x := by
  unfold nearest
  have hq := quantum_pos x
  have h0 : (0 : ℤ) ≤ roundNearestEven (x / quantum x) :=
    le_trans (Int.floor_nonneg.mpr (div_nonneg hx hq.le)) (floor_le_roundNearestEven _)
  have : (0 : ℚ) ≤ (roundNearestEven (x / quantum x) : ℚ) := by exact_mod_cast h0
  positivity

/-- The exponent of `x`, not below `-126`. -/
theorem exponent_mono {x y : ℚ} (hx : 0 < x) (h : x ≤ y) :
    max (Int.log 2 x) (-126) ≤ max (Int.log 2 y) (-126) :=
  max_le_max (Int.log_mono_right hx h) le_rfl

theorem two_pow_24_mul (e : ℤ) : (2 : ℚ) ^ 24 * 2 ^ (e - 23) = 2 ^ (e + 1) := by
  rw [← zpow_natCast, ← zpow_add₀ (by norm_num)]
  congr 1
  omega

theorem two_pow_23_mul (e : ℤ) : (2 : ℚ) ^ 23 * 2 ^ (e - 23) = 2 ^ e := by
  rw [← zpow_natCast, ← zpow_add₀ (by norm_num)]
  congr 1
  omega

theorem nearest_le_pow (x : ℚ) :
    nearest x ≤ 2 ^ (max (Int.log 2 x) (-126) + 1) := by
  unfold nearest quantum
  set e := max (Int.log 2 x) (-126) with he
  have hxlt : x < (2 : ℚ) ^ (e + 1) := by
    have h1 : x < ((2 : ℕ) : ℚ) ^ (Int.log 2 x + 1) := Int.lt_zpow_succ_log_self (by norm_num) x
    have h2 : ((2 : ℕ) : ℚ) ^ (Int.log 2 x + 1) ≤ (2 : ℚ) ^ (e + 1) := by
      push_cast
      apply zpow_le_zpow_right₀ (by norm_num)
      have := le_max_left (Int.log 2 x) (-126)
      omega
    exact lt_of_lt_of_le h1 h2
  have hq : (0 : ℚ) < 2 ^ (e - 23) := by positivity
  have hdiv : x / 2 ^ (e - 23) ≤ ((2 ^ 24 : ℤ) : ℚ) := by
    rw [div_le_iff₀ hq]
    have : ((2 ^ 24 : ℤ) : ℚ) * 2 ^ (e - 23) = 2 ^ (e + 1) := by
      rw [← two_pow_24_mul e]
      norm_num
    rw [this]
    exact hxlt.le
  have hr := roundNearestEven_mono hdiv
  rw [roundNearestEven_intCast] at hr
  have hr' : (roundNearestEven (x / 2 ^ (e - 23)) : ℚ) ≤ 2 ^ 24 := by exact_mod_cast hr
  calc (roundNearestEven (x / 2 ^ (e - 23)) : ℚ) * 2 ^ (e - 23)
      ≤ 2 ^ 24 * 2 ^ (e - 23) := by
        apply mul_le_mul_of_nonneg_right hr' hq.le
    _ = 2 ^ (e + 1) := two_pow_24_mul e

theorem pow_le_nearest (x : ℚ) (hx : 0 < x) (h : -126 ≤ Int.log 2 x) :
    2 ^ (Int.log 2 x) ≤ nearest x := by
  unfold nearest quantum
  rw [max_eq_left h]
  set e := Int.log 2 x with he
  have hxge : (2 : ℚ) ^ e ≤ x := by
    have := Int.zpow_log_le_self (b := 2) (r := x) (by norm_num) hx
    exact_mod_cast this
  have hq : (0 : ℚ) < 2 ^ (e - 23) := by positivity
  have hdiv : ((2 ^ 23 : ℤ) : ℚ) ≤ x / 2 ^ (e - 23) := by
    rw [le_div_iff₀ hq]
    have : ((2 ^ 23 : ℤ) : ℚ) * 2 ^ (e - 23) = 2 ^ e := by
      rw [← two_pow_23_mul e]
      norm_num
    rw [this]
    exact hxge
  have hr := roundNearestEven_mono hdiv
  rw [roundNearestEven_intCast] at hr
  have hr' : (2 ^ 23 : ℚ) ≤ (roundNearestEven (x / 2 ^ (e - 23)) : ℚ) := by exact_mod_cast hr
  calc (2 : ℚ) ^ e = 2 ^ 23 * 2 ^ (e - 23) := (two_pow_23_mul e).symm
    _ ≤ (roundNearestEven (x / 2 ^ (e - 23)) : ℚ) * 2 ^ (e - 23) := by
        apply mul_le_mul_of_nonneg_right hr' hq.le

/-- Rounding to `float32` is monotone. -/
theorem nearest_mono {x y : ℚ} (hx : 0 < x) (h : x ≤ y) : nearest x ≤ nearest y := by
  have hy : 0 < y := lt_of_lt_of_le hx h
  rcases (exponent_mono hx h).lt_or_eq with hlt | heq
  · have hlog : max (Int.log 2 y) (-126) = Int.log 2 y := by
      apply max_eq_left
      have := le_max_right (Int.log 2 x) (-126)
      by_contra hc
      push_neg at hc
      rw [max_eq_right hc.le] at hlt
      omega
    rw [hlog] at hlt
    calc nearest x ≤ 2 ^ (max (Int.log 2 x) (-126) + 1) := nearest_le_pow x
      _ ≤ 2 ^ (Int.log 2 y) := by
          apply zpow_le_zpow_right₀ (by norm_num)
          omega
      _ ≤ nearest y := by
          apply pow_le_nearest y hy
          have := le_max_right (Int.log 2 x) (-126)
          omega
  · unfold nearest quantum
    rw [← heq]
    have hq : (0 : ℚ) < 2 ^ (max (Int.log 2 x) (-126) - 23) := by positivity
    apply mul_le_mul_of_nonneg_right _ hq.le
    have := roundNearestEven_mono (div_le_div_of_nonneg_right h hq.le)
    exact_mod_cast this

theorem nearest_mono_nonneg {x y : ℚ} (hx : 0 ≤ x) (h : x ≤ y) : nearest x ≤ nearest y := by
  rcases hx.lt_or_eq with hpos | hzero
  · exact nearest_mono hpos h
  · rw [← hzero, nearest_zero]
    exact nearest_nonneg y (le_trans hx h)


theorem nearest_of_scaled (x : ℚ) (e m : ℤ) (he : -126 ≤ e) (hlo : (2 : ℚ) ^ e ≤ x)
    (hhi : x < (2 : ℚ) ^ (e + 1)) (hm : x = m * 2 ^ (e - 23)) : nearest x = x := by
  rw [nearest_of_binade x e he hlo hhi]
  have hq : (0 : ℚ) < 2 ^ (e - 23) := by positivity
  have : x / 2 ^ (e - 23) = (m : ℚ) := by
    rw [hm]
    field_simp
  rw [this, roundNearestEven_intCast, ← hm]

/-- Every natural number up to `2^24` is a `float32`. -/
theorem nearest_natCast (k : ℕ) (hk : k ≤ 2 ^ 24) : nearest (k : ℚ) = k := by
  rcases Nat.eq_zero_or_pos k with h0 | hpos
  · subst h0
    simpa using nearest_zero
  have hlo : 2 ^ Nat.log 2 k ≤ k := Nat.pow_log_le_self 2 (by omega)
  have hhi : k < 2 ^ (Nat.log 2 k + 1) := Nat.lt_pow_succ_log_self (by norm_num) k
  have he : Nat.log 2 k ≤ 24 := by
    by_contra hc
    push_neg at hc
    have : 2 ^ 25 ≤ 2 ^ Nat.log 2 k := Nat.pow_le_pow_right (by norm_num) hc
    omega
  have hloQ : (2 : ℚ) ^ ((Nat.log 2 k : ℕ) : ℤ) ≤ (k : ℚ) := by
    rw [zpow_natCast]
    exact_mod_cast hlo
  have hhiQ : (k : ℚ) < (2 : ℚ) ^ (((Nat.log 2 k : ℕ) : ℤ) + 1) := by
    have : (((Nat.log 2 k : ℕ) : ℤ) + 1) = ((Nat.log 2 k + 1 : ℕ) : ℤ) := by push_cast; ring
    rw [this, zpow_natCast]
    exact_mod_cast hhi
  rcases Nat.lt_or_ge (Nat.log 2 k) 24 with hlt | hge
  · apply nearest_of_scaled (k : ℚ) (Nat.log 2 k) (k * 2 ^ (23 - Nat.log 2 k)) (by omega) hloQ hhiQ
    have h23 : ((Nat.log 2 k : ℕ) : ℤ) - 23 = -((23 - Nat.log 2 k : ℕ) : ℤ) := by omega
    rw [h23, zpow_neg, zpow_natCast]
    push_cast
    field_simp
  · have h24 : Nat.log 2 k = 24 := by omega
    rw [h24] at hlo hloQ hhiQ
    have hk24 : k = 2 ^ 24 := by omega
    apply nearest_of_scaled (k : ℚ) 24 (2 ^ 23) (by norm_num) (by simpa using hloQ)
      (by simpa using hhiQ)
    rw [hk24]
    norm_num

theorem ofRat_natCast (k : ℕ) (hk : k ≤ 2 ^ 24) : ofRat (k : ℚ) = finite k := by
  unfold ofRat
  rw [nearest_natCast k hk, if_neg]
  push_neg
  have : (k : ℚ) ≤ 2 ^ 24 := by exact_mod_cast hk
  linarith [show (2 : ℚ) ^ 24 < 2 ^ 128 by norm_num]

/-- The `float32` value of the constant `0.01`. -/
theorem nearest_normalErrorRate : nearest (1 / 100) = 10737418 / 2 ^ 30 := by
  rw [nearest_of_binade (1 / 100) (-7) (by norm_num) (by norm_num [zpow_neg])
    (by norm_num [zpow_neg])]
  rw [roundNearestEven_of_near _ 10737418 (by norm_num [zpow_neg]) (by norm_num [zpow_neg])]
  norm_num [zpow_neg]

/-- The ratio `14510023 / 1451002400`, which no ratio `f / t` with `100 * f < t`
and `t ≤ 14510100` exceeds, rounds below the constant. -/
theorem nearest_below : nearest (14510023 / 1451002400) = 10737417 / 2 ^ 30 := by
  rw [nearest_of_binade _ (-7) (by norm_num) (by norm_num [zpow_neg])
    (by norm_num [zpow_neg])]
  rw [roundNearestEven_of_near _ 10737417 (by norm_num [zpow_neg]) (by norm_num [zpow_neg])]
  norm_num [zpow_neg]

theorem nearest_counterexample : nearest (145101 / 14510101) = 10737418 / 2 ^ 30 := by
  rw [nearest_of_binade _ (-7) (by norm_num) (by norm_num [zpow_neg])
    (by norm_num [zpow_neg])]
  rw [roundNearestEven_of_near _ 10737418 (by norm_num [zpow_neg]) (by norm_num [zpow_neg])]
  norm_num [zpow_neg]

/-- The sum `2^24 + 1` is a tie between `2^24` and `2^24 + 2`, and goes to `2^24`. -/
theorem nearest_saturated : nearest (2 ^ 24 + 1) = 2 ^ 24 := by
  rw [nearest_of_binade _ 24 (by norm_num) (by norm_num) (by norm_num)]
  have : ((2 : ℚ) ^ 24 + 1) / 2 ^ ((24 : ℤ) - 23) = ((8388608 : ℤ) : ℚ) + 1 / 2 := by norm_num
  rw [this, roundNearestEven_tie_even _ (by norm_num)]
  norm_num

end Float32

/-! ## Lemmas on `fillChannelAppDevice` -/

theorem failedCount_add_parsedCount {F : Type} (ParseFloat : Str → Option F)
    (channel : List Str) :
    failedCount ParseFloat channel + parsedCount ParseFloat channel = channel.length := by
  unfold failedCount parsedCount
  induction channel with
  | nil => simp
  | cons line rest ih =>
    simp only [List.countP_cons, List.length_cons]
    cases (parseAppsInstalled ParseFloat line).toBool <;> simp <;> omega

theorem add_one_of_lt (n : ℕ) (h : n < 2 ^ 24) :
    (Float32.finite (n : ℚ)).add (Float32.ofRat 1) = Float32.finite ((n + 1 : ℕ) : ℚ) := by
  have h1 : Float32.ofRat 1 = Float32.finite 1 := by
    simpa using Float32.ofRat_natCast 1 (by norm_num)
  rw [h1]
  show Float32.ofRat ((n : ℚ) + 1) = _
  have := Float32.ofRat_natCast (n + 1) (by omega)
  push_cast at this ⊢
  exact this

/-- A counter that holds `2^24` stays there. -/
theorem add_one_saturated :
    (Float32.finite (2 ^ 24)).add (Float32.ofRat 1) = Float32.finite (2 ^ 24) := by
  have h1 : Float32.ofRat 1 = Float32.finite 1 := by
    simpa using Float32.ofRat_natCast 1 (by norm_num)
  rw [h1]
  show Float32.ofRat ((2 : ℚ) ^ 24 + 1) = _
  unfold Float32.ofRat
  rw [Float32.nearest_saturated, if_neg (by norm_num)]

theorem fillStep_ok {F : Type} (ParseFloat : Str → Option F) (st : ParserState F) (line : Str)
    (r : deviceApps F) (h : parseAppsInstalled ParseFloat line = .ok r) :
    fillStep ParseFloat st line =
      { st with sent := st.sent ++ [r],
                successLine := st.successLine.add (Float32.ofRat 1) } := by
  unfold fillStep
  rw [h]

theorem fillStep_error {F : Type} (ParseFloat : Str → Option F) (st : ParserState F)
    (line : Str) (err : ParseError) (h : parseAppsInstalled ParseFloat line = .error err) :
    fillStep ParseFloat st line =
      { st with log := st.log ++ [.parseError err],
                failedLine := st.failedLine.add (Float32.ofRat 1) } := by
  unfold fillStep
  rw [h]

/-- The loop from any state whose counters are natural numbers, as long as no
counter passes `2^24`. -/
theorem foldl_fillStep {F : Type} (ParseFloat : Str → Option F) (channel : List Str) :
    ∀ (st : ParserState F) (a b : ℕ), st.failedLine = .finite a → st.successLine = .finite b →
      a + b + channel.length ≤ 2 ^ 24 →
      (channel.foldl (fillStep ParseFloat) st).failedLine
          = .finite ((a + failedCount ParseFloat channel : ℕ) : ℚ) ∧
      (channel.foldl (fillStep ParseFloat) st).successLine
          = .finite ((b + parsedCount ParseFloat channel : ℕ) : ℚ) ∧
      (channel.foldl (fillStep ParseFloat) st).sent
          = st.sent ++ parsedRecords ParseFloat channel := by
  induction channel with
  | nil =>
    intro st a b ha hb _
    simp [failedCount, parsedCount, parsedRecords, ha, hb]
  | cons line rest ih =>
    intro st a b ha hb hlen
    simp only [List.length_cons] at hlen
    simp only [List.foldl_cons]
    cases hp : parseAppsInstalled ParseFloat line with
    | ok r =>
      rw [fillStep_ok ParseFloat st line r hp]
      have hstep := add_one_of_lt b (by omega)
      obtain ⟨h1, h2, h3⟩ := ih
        { st with sent := st.sent ++ [r],
                  successLine := st.successLine.add (Float32.ofRat 1) } a (b + 1) ha
        (by simp only []; rw [hb]; exact hstep) (by omega)
      refine ⟨?_, ?_, ?_⟩
      · rw [h1]
        simp [failedCount, List.countP_cons, hp, Except.toBool]
      · rw [h2]
        simp [parsedCount, List.countP_cons, hp, Except.toBool]
        ring
      · rw [h3]
        simp [parsedRecords, List.filterMap_cons, hp, Except.toOption]
    | error err =>
      rw [fillStep_error ParseFloat st line err hp]
      have hstep := add_one_of_lt a (by omega)
      obtain ⟨h1, h2, h3⟩ := ih
        { st with log := st.log ++ [.parseError err],
                  failedLine := st.failedLine.add (Float32.ofRat 1) } (a + 1) b
        (by simp only []; rw [ha]; exact hstep) hb (by omega)
      refine ⟨?_, ?_, ?_⟩
      · rw [h1]
        simp [failedCount, List.countP_cons, hp, Except.toBool]
        ring
      · rw [h2]
        simp [parsedCount, List.countP_cons, hp, Except.toBool]
      · rw [h3]
        simp [parsedRecords, List.filterMap_cons, hp, Except.toOption]

theorem fillLoop_counters {F : Type} (ParseFloat : Str → Option F) (channel : List Str)
    (hlen : channel.length ≤ 2 ^ 24) :
    (fillLoop ParseFloat channel).failedLine = .finite (failedCount ParseFloat channel : ℕ) ∧
    (fillLoop ParseFloat channel).successLine = .finite (parsedCount ParseFloat channel : ℕ) ∧
    (fillLoop ParseFloat channel).sent = parsedRecords ParseFloat channel := by
  have := foldl_fillStep ParseFloat channel
    { sent := [], failedLine := .finite 0, successLine := .finite 0, log := [] } 0 0
    (by simp) (by simp) (by omega)
  simpa [fillLoop] using this


theorem ofRat_normalErrorRate :
    Float32.ofRat normalErrorRate = .finite (10737418 / 2 ^ 30) := by
  unfold Float32.ofRat normalErrorRate
  rw [Float32.nearest_normalErrorRate, if_neg (by norm_num)]

theorem ofRat_ratio (f t : ℕ) (ht : 0 < t) (hft : f ≤ t) :
    Float32.ofRat ((f : ℚ) / t) = .finite (Float32.nearest ((f : ℚ) / t)) := by
  unfold Float32.ofRat
  rw [if_neg]
  push_neg
  have htq : (0 : ℚ) < t := by exact_mod_cast ht
  have h1 : (f : ℚ) / t ≤ ((1 : ℕ) : ℚ) := by
    rw [div_le_iff₀ htq]
    push_cast
    rw [one_mul]
    exact_mod_cast hft
  have h2 := Float32.nearest_mono_nonneg (by positivity) h1
  rw [Float32.nearest_natCast 1 (by norm_num)] at h2
  have h3 : (1 : ℚ) < 2 ^ 128 := by norm_num
  push_cast at h2
  linarith

/-- The verdict on two counters that hold natural numbers, in terms of the
rounded ratio. -/
theorem verdict_natCast (f s : ℕ) (hpos : 0 < f + s) (hle : f + s ≤ 2 ^ 24) :
    verdict (.finite f) (.finite s) =
      if Float32.nearest ((f : ℚ) / (f + s : ℕ)) < 10737418 / 2 ^ 30 then
        .acceptable (.finite (Float32.nearest ((f : ℚ) / (f + s : ℕ))))
      else .highErrorRate (.finite (Float32.nearest ((f : ℚ) / (f + s : ℕ)))) := by
  have hadd : (Float32.finite (f : ℚ)).add (Float32.finite (s : ℚ))
      = .finite ((f + s : ℕ) : ℚ) := by
    show Float32.ofRat ((f : ℚ) + s) = _
    have := Float32.ofRat_natCast (f + s) hle
    push_cast at this ⊢
    exact this
  have hne : ((f + s : ℕ) : ℚ) ≠ 0 := by
    have : (0 : ℚ) < ((f + s : ℕ) : ℚ) := by exact_mod_cast hpos
    exact this.ne'
  have hdiv : (Float32.finite (f : ℚ)).div (.finite ((f + s : ℕ) : ℚ))
      = .finite (Float32.nearest ((f : ℚ) / (f + s : ℕ))) := by
    show (if ((f + s : ℕ) : ℚ) = 0 then _ else _) = _
    rw [if_neg hne]
    exact ofRat_ratio f (f + s) hpos (by omega)
  unfold verdict
  simp only []
  rw [hadd, hdiv, ofRat_normalErrorRate]
  simp only [Float32.lt, decide_eq_true_eq]

/-- The rounded ratio is below the rounded constant exactly when the exact
ratio is below `1 / 100`, for up to `14510100` lines. -/
theorem nearest_ratio_lt_iff (f t : ℕ) (ht : 0 < t) (hle : t ≤ 14510100) :
    Float32.nearest ((f : ℚ) / t) < 10737418 / 2 ^ 30 ↔ 100 * f < t := by
  have htq : (0 : ℚ) < t := by exact_mod_cast ht
  constructor
  · intro h
    by_contra hc
    push_neg at hc
    have hge : (1 : ℚ) / 100 ≤ (f : ℚ) / t := by
      rw [div_le_div_iff₀ (by norm_num) htq]
      have : (t : ℚ) ≤ 100 * f := by exact_mod_cast hc
      linarith
    have := Float32.nearest_mono (by norm_num) hge
    rw [Float32.nearest_normalErrorRate] at this
    linarith
  · intro h
    have hnat : f * 1451002400 ≤ 14510023 * t := by
      rcases Nat.lt_or_ge 14510024 t with hbig | hsmall
      · have hf : f ≤ 145100 := by omega
        omega
      · have h1 : 100 * f + 1 ≤ t := h
        calc f * 1451002400 = (100 * f) * 14510024 := by ring
          _ ≤ (t - 1) * 14510024 := Nat.mul_le_mul_right _ (by omega)
          _ ≤ 14510023 * t := by
              obtain ⟨u, rfl⟩ : ∃ u, t = u + 1 := ⟨t - 1, by omega⟩
              simp only [Nat.add_sub_cancel]
              omega
    have hle' : (f : ℚ) / t ≤ 14510023 / 1451002400 := by
      rw [div_le_div_iff₀ htq (by norm_num)]
      exact_mod_cast hnat
    have := Float32.nearest_mono_nonneg (by positivity) hle'
    rw [Float32.nearest_below] at this
    have hlt : (10737417 : ℚ) / 2 ^ 30 < 10737418 / 2 ^ 30 := by norm_num
    linarith

theorem verdict_acceptable_iff (f s : ℕ) (hpos : 0 < f + s) (hle : f + s ≤ 14510100) :
    (verdict (.finite f) (.finite s)).isAcceptable = true ↔ 100 * f < f + s := by
  rw [verdict_natCast f s hpos (by omega),
    ← nearest_ratio_lt_iff f (f + s) hpos hle]
  split_ifs with h
  · simp only [ParserLog.isAcceptable, true_iff]
    exact h
  · simp only [ParserLog.isAcceptable, Bool.false_eq_true, false_iff]
    exact h

theorem verdict_highErrorRate_iff (f s : ℕ) (hpos : 0 < f + s) (hle : f + s ≤ 14510100) :
    (verdict (.finite f) (.finite s)).isHighErrorRate = true ↔ f + s ≤ 100 * f := by
  rw [verdict_natCast f s hpos (by omega), ← not_lt,
    ← nearest_ratio_lt_iff f (f + s) hpos hle]
  split_ifs with h
  · simp only [ParserLog.isHighErrorRate, Bool.false_eq_true, false_iff, not_not]
    exact h
  · simp only [ParserLog.isHighErrorRate, true_iff]
    exact h


theorem foldl_fillStep_replicate_error {F : Type} (ParseFloat : Str → Option F) (line : Str)
    (err : ParseError) (h : parseAppsInstalled ParseFloat line = .error err) (n : ℕ) :
    ∀ (st : ParserState F) (a : ℕ), st.failedLine = .finite a → a ≤ 2 ^ 24 →
      ((List.replicate n line).foldl (fillStep ParseFloat) st).failedLine
        = .finite ((min (a + n) (2 ^ 24) : ℕ) : ℚ) := by
  induction n with
  | zero =>
    intro st a ha hle
    simp only [List.replicate_zero, List.foldl_nil, Nat.add_zero, Nat.min_eq_left hle]
    exact ha
  | succ n ih =>
    intro st a ha hle
    simp only [List.replicate_succ, List.foldl_cons]
    rw [fillStep_error ParseFloat st line err h]
    rcases Nat.lt_or_ge a (2 ^ 24) with hlt | hge
    · have := ih { st with log := st.log ++ [.parseError err],
                           failedLine := st.failedLine.add (Float32.ofRat 1) } (a + 1)
        (by simp only []; rw [ha]; exact add_one_of_lt a hlt) (by omega)
      rw [this]
      congr 2
      omega
    · have ha24 : a = 2 ^ 24 := by omega
      have := ih { st with log := st.log ++ [.parseError err],
                           failedLine := st.failedLine.add (Float32.ofRat 1) } a
        (by
          simp only []
          rw [ha, ha24]
          have := add_one_saturated
          push_cast
          exact this) hle
      rw [this]
      congr 2
      omega

theorem fillChannelAppDevice_log {F : Type} (ParseFloat : Str → Option F) (channel : List Str) :
    (fillChannelAppDevice ParseFloat channel).log.getLast? =
      some (verdict (fillLoop ParseFloat channel).failedLine
        (fillLoop ParseFloat channel).successLine) := by
  simp [fillChannelAppDevice]

/-! ## The claims on `parseAppsInstalled` and `fillChannelAppDevice` -/

/-- C1, as amended: when the line with its leading and trailing white space
removed splits on the tab into exactly five fields, the first two are not
empty and `ParseFloat` accepts the third and the fourth, `parseAppsInstalled`
succeeds and returns the first two fields of the trimmed line as `devType` and
`devId`, and the parsed values of the third and fourth as `lat` and `lon`. -/
theorem parseAppsInstalled_wellFormed {F : Type} (ParseFloat : Str → Option F)
    (line f1 f2 f3 f4 f5 : Str) (lat lon : F)
    (hsplit : Split '\t' (TrimSpace line) = [f1, f2, f3, f4, f5])
    (h1 : f1 ≠ []) (h2 : f2 ≠ [])
    (hlat : ParseFloat f3 = some lat) (hlon : ParseFloat f4 = some lon) :
    parseAppsInstalled ParseFloat line =
      .ok { devType := f1, devId := f2, lat := lat, lon := lon, apps := parseApps f5 } := by
  rw [parseAppsInstalled_fields ParseFloat line f1 f2 f3 f4 f5 hsplit]
  have h1' : f1.length ≠ 0 := fun h => h1 (List.length_eq_zero.mp h)
  have h2' : f2.length ≠ 0 := fun h => h2 (List.length_eq_zero.mp h)
  rw [if_neg h1', if_neg h2', hlat, hlon]

/-- C1, witness: a line as the file reader hands it over, newline included. -/
theorem parseAppsInstalled_wellFormed_witness :
    Split '\t' (TrimSpace "idfa\t1rfw4\t55\t42\t1423,43\n".toList)
      = ["idfa".toList, "1rfw4".toList, "55".toList, "42".toList, "1423,43".toList] ∧
    parseAppsInstalled decimalFloat "idfa\t1rfw4\t55\t42\t1423,43\n".toList =
      .ok { devType := "idfa".toList, devId := "1rfw4".toList, lat := 55, lon := 42,
            apps := parseApps "1423,43".toList } :=
  ⟨by decide,
   parseAppsInstalled_wellFormed decimalFloat "idfa\t1rfw4\t55\t42\t1423,43\n".toList
     "idfa".toList "1rfw4".toList "55".toList "42".toList "1423,43".toList 55 42
     (by decide) (by decide) (by decide) (by decide) (by decide)⟩

/-- C1, counterexample: the line `a<tab>b<tab>1<tab>2<tab>` splits into five
fields, the last one empty, and is rejected with the field-count error, because
trimming removes its last tab; and the line ` a<tab>b<tab>1<tab>2<tab>3` has the
first field ` a` but yields the device type `a`. -/
theorem parseAppsInstalled_trim_counterexample :
    (Split '\t' "a\tb\t1\t2\t".toList
        = ["a".toList, "b".toList, "1".toList, "2".toList, []] ∧
      decimalFloat "1".toList = some 1 ∧ decimalFloat "2".toList = some 2 ∧
      parseAppsInstalled decimalFloat "a\tb\t1\t2\t".toList = .error .fieldCount) ∧
    (Split '\t' " a\tb\t1\t2\t3".toList
        = [" a".toList, "b".toList, "1".toList, "2".toList, "3".toList] ∧
      parseAppsInstalled decimalFloat " a\tb\t1\t2\t3".toList =
        .ok { devType := "a".toList, devId := "b".toList, lat := 1, lon := 2, apps := [3] }) :=
  ⟨⟨by decide, by decide, by decide, rfl⟩, by decide, rfl⟩

/-- C2, as amended: on success the apps are, in order, the conversions to
`uint32` of the values of those comma-separated tokens of the fifth field of
the trimmed line that `Atoi` accepts; every element is below `2^32`, and equals
the value of its token whenever that value lies in `0 .. 2^32 - 1`. -/
theorem parseAppsInstalled_apps {F : Type} (ParseFloat : Str → Option F) (line : Str)
    (r : deviceApps F) (h : parseAppsInstalled ParseFloat line = .ok r) :
    ∃ f1 f2 f3 f4 f5, Split '\t' (TrimSpace line) = [f1, f2, f3, f4, f5] ∧
      r.apps = ((Split ',' f5).filterMap Atoi).map uint32 ∧
      (∀ a ∈ r.apps, a < 2 ^ 32) ∧
      List.Forall₂ (fun (a : Nat) (v : Int) => 0 ≤ v → v < 2 ^ 32 → (a : Int) = v)
        r.apps ((Split ',' f5).filterMap Atoi) := by
  obtain ⟨f1, f2, f3, f4, f5, hs, _, _, _, _, _, _, happs⟩ :=
    parseAppsInstalled_ok_inv ParseFloat line r h
  refine ⟨f1, f2, f3, f4, f5, hs, ?_, ?_, ?_⟩
  · rw [happs, parseApps_eq]
  · intro a ha
    rw [happs, parseApps_eq, List.mem_map] at ha
    obtain ⟨v, _, rfl⟩ := ha
    exact uint32_lt v
  · rw [happs, parseApps_eq, List.forall₂_map_left_iff]
    apply List.forall₂_same.mpr
    intro v _ h0 h1
    exact uint32_of_inRange v h0 h1

/-- C2, witness: the fifth field `1,x,3` gives the apps `[1, 3]`. -/
theorem parseAppsInstalled_apps_witness :
    parseAppsInstalled decimalFloat "idfa\tdev\t55\t42\t1,x,3\n".toList =
      .ok { devType := "idfa".toList, devId := "dev".toList, lat := 55, lon := 42,
            apps := [1, 3] } ∧
    ∃ f1 f2 f3 f4 f5,
      Split '\t' (TrimSpace "idfa\tdev\t55\t42\t1,x,3\n".toList) = [f1, f2, f3, f4, f5] ∧
      [1, 3] = ((Split ',' f5).filterMap Atoi).map uint32 ∧
      (∀ a ∈ [1, 3], a < 2 ^ 32) ∧
      List.Forall₂ (fun (a : Nat) (v : Int) => 0 ≤ v → v < 2 ^ 32 → (a : Int) = v)
        [1, 3] ((Split ',' f5).filterMap Atoi) :=
  ⟨rfl,
   parseAppsInstalled_apps decimalFloat "idfa\tdev\t55\t42\t1,x,3\n".toList
     { devType := "idfa".toList, devId := "dev".toList, lat := 55, lon := 42, apps := [1, 3] }
     rfl⟩

/-- C2, counterexample: the tokens `7`, `-1` and `4294967297` denote 7, -1 and
4294967297, and the apps returned are 7, 4294967295 and 1. -/
theorem parseAppsInstalled_apps_counterexample :
    parseAppsInstalled decimalFloat "a\tb\t1\t2\t7,-1,4294967297".toList =
      .ok { devType := "a".toList, devId := "b".toList, lat := 1, lon := 2,
            apps := [7, 4294967295, 1] } ∧
    (Split ',' "7,-1,4294967297".toList).filterMap Atoi = [7, -1, 4294967297] ∧
    ([7, 4294967295, 1] : List Nat).map Int.ofNat ≠ [7, -1, 4294967297] :=
  ⟨rfl, by decide, by decide⟩


/-- C3, as amended: when the line with its leading and trailing white space
removed does not split on the tab into exactly five fields, `parseAppsInstalled`
returns the field-count error and no record, and the iteration of
`fillChannelAppDevice` for the line sends nothing on the record channel, leaves
the counter of parsed lines as it is and, when the counter of failed lines
holds a natural number below `2^24`, adds one to it. -/
theorem fillStep_fieldCount {F : Type} (ParseFloat : Str → Option F) (st : ParserState F)
    (line : Str) (n : ℕ) (hfields : (Split '\t' (TrimSpace line)).length ≠ 5)
    (hn : st.failedLine = .finite (n : ℚ)) (hlt : n < 2 ^ 24) :
    parseAppsInstalled ParseFloat line = .error .fieldCount ∧
    (fillStep ParseFloat st line).sent = st.sent ∧
    (fillStep ParseFloat st line).failedLine = .finite ((n + 1 : ℕ) : ℚ) ∧
    (fillStep ParseFloat st line).successLine = st.successLine := by
  have hp := parseAppsInstalled_fieldCount ParseFloat line hfields
  rw [fillStep_error ParseFloat st line _ hp]
  refine ⟨hp, rfl, ?_, rfl⟩
  simp only []
  rw [hn]
  exact add_one_of_lt n hlt

/-- C3, witness: a line of three fields, met after two failed lines. -/
theorem fillStep_fieldCount_witness :
    (Split '\t' (TrimSpace "idfa\tdev\t55\n".toList)).length ≠ 5 ∧
    (2 : ℕ) < 2 ^ 24 ∧
    parseAppsInstalled decimalFloat "idfa\tdev\t55\n".toList = .error .fieldCount ∧
    (fillStep decimalFloat
        { sent := [], failedLine := .finite ((2 : ℕ) : ℚ), successLine := .finite 7, log := [] }
        "idfa\tdev\t55\n".toList).sent = [] ∧
    (fillStep decimalFloat
        { sent := [], failedLine := .finite ((2 : ℕ) : ℚ), successLine := .finite 7, log := [] }
        "idfa\tdev\t55\n".toList).failedLine = .finite ((2 + 1 : ℕ) : ℚ) ∧
    (fillStep decimalFloat
        { sent := [], failedLine := .finite ((2 : ℕ) : ℚ), successLine := .finite 7, log := [] }
        "idfa\tdev\t55\n".toList).successLine = .finite 7 :=
  ⟨by decide, by norm_num,
   fillStep_fieldCount decimalFloat
     { sent := [], failedLine := .finite ((2 : ℕ) : ℚ), successLine := .finite 7, log := [] }
     "idfa\tdev\t55\n".toList 2 (by decide) rfl (by norm_num)⟩

/-- C3, counterexample: the line `a<tab>b<tab>1<tab>2<tab>3<tab>` splits into
six fields, yet it parses and its record is sent; and a failed line met when
the counter of failed lines holds `2^24` leaves the counter at `2^24`. -/
theorem fillStep_fieldCount_counterexample :
    ((Split '\t' "a\tb\t1\t2\t3\t".toList).length = 6 ∧
      parseAppsInstalled decimalFloat "a\tb\t1\t2\t3\t".toList =
        .ok { devType := "a".toList, devId := "b".toList, lat := 1, lon := 2, apps := [3] } ∧
      (fillStep decimalFloat
          { sent := [], failedLine := .finite 0, successLine := .finite 0, log := [] }
          "a\tb\t1\t2\t3\t".toList).sent =
        [{ devType := "a".toList, devId := "b".toList, lat := 1, lon := 2, apps := [3] }]) ∧
    ((Split '\t' "x".toList).length = 1 ∧
      (fillStep decimalFloat
          { sent := [], failedLine := .finite (2 ^ 24), successLine := .finite 0, log := [] }
          "x".toList).failedLine = .finite (2 ^ 24)) := by
  refine ⟨⟨by decide, rfl, ?_⟩, by decide, ?_⟩
  · rw [fillStep_ok decimalFloat _ "a\tb\t1\t2\t3\t".toList
      { devType := "a".toList, devId := "b".toList, lat := 1, lon := 2, apps := [3] } rfl]
    rfl
  · rw [fillStep_error decimalFloat _ "x".toList .fieldCount rfl]
    exact add_one_saturated

/-- C6, as amended: for a run of at least one and at most 14510100 lines, the
two counters hold the numbers of lines that failed to parse and that parsed,
and the last line logged is the "acceptable" verdict if and only if
`100 * failed < failed + parsed`, and the "high error rate" verdict otherwise,
a ratio of exactly `0.01` included. -/
theorem fillChannelAppDevice_verdict {F : Type} (ParseFloat : Str → Option F)
    (channel : List Str) (hpos : 0 < channel.length) (hle : channel.length ≤ 14510100) :
    (fillChannelAppDevice ParseFloat channel).failedLine
      = .finite ((failedCount ParseFloat channel : ℕ) : ℚ) ∧
    (fillChannelAppDevice ParseFloat channel).successLine
      = .finite ((parsedCount ParseFloat channel : ℕ) : ℚ) ∧
    ∃ v, (fillChannelAppDevice ParseFloat channel).log.getLast? = some v ∧
      (v.isAcceptable = true ↔
        100 * failedCount ParseFloat channel
          < failedCount ParseFloat channel + parsedCount ParseFloat channel) ∧
      (v.isHighErrorRate = true ↔
        failedCount ParseFloat channel + parsedCount ParseFloat channel
          ≤ 100 * failedCount ParseFloat channel) := by
  obtain ⟨hf, hs, _⟩ := fillLoop_counters ParseFloat channel (by omega)
  have hsum := failedCount_add_parsedCount ParseFloat channel
  refine ⟨hf, hs, _, fillChannelAppDevice_log ParseFloat channel, ?_, ?_⟩
  · rw [hf, hs]
    exact verdict_acceptable_iff _ _ (by omega) (by omega)
  · rw [hf, hs]
    exact verdict_highErrorRate_iff _ _ (by omega) (by omega)

/-- C6, witness: a run of one good and one bad line. -/
theorem fillChannelAppDevice_verdict_witness :
    0 < ["a\tb\t1\t2\t3\n".toList, "bad\n".toList].length ∧
    ["a\tb\t1\t2\t3\n".toList, "bad\n".toList].length ≤ 14510100 ∧
    (fillChannelAppDevice decimalFloat ["a\tb\t1\t2\t3\n".toList, "bad\n".toList]).failedLine
      = .finite ((failedCount decimalFloat
          ["a\tb\t1\t2\t3\n".toList, "bad\n".toList] : ℕ) : ℚ) ∧
    (fillChannelAppDevice decimalFloat ["a\tb\t1\t2\t3\n".toList, "bad\n".toList]).successLine
      = .finite ((parsedCount decimalFloat
          ["a\tb\t1\t2\t3\n".toList, "bad\n".toList] : ℕ) : ℚ) ∧
    ∃ v, (fillChannelAppDevice decimalFloat
        ["a\tb\t1\t2\t3\n".toList, "bad\n".toList]).log.getLast? = some v ∧
      (v.isAcceptable = true ↔
        100 * failedCount decimalFloat ["a\tb\t1\t2\t3\n".toList, "bad\n".toList]
          < failedCount decimalFloat ["a\tb\t1\t2\t3\n".toList, "bad\n".toList]
            + parsedCount decimalFloat ["a\tb\t1\t2\t3\n".toList, "bad\n".toList]) ∧
      (v.isHighErrorRate = true ↔
        failedCount decimalFloat ["a\tb\t1\t2\t3\n".toList, "bad\n".toList]
            + parsedCount decimalFloat ["a\tb\t1\t2\t3\n".toList, "bad\n".toList]
          ≤ 100 * failedCount decimalFloat ["a\tb\t1\t2\t3\n".toList, "bad\n".toList]) :=
  ⟨by decide, by decide,
   fillChannelAppDevice_verdict decimalFloat ["a\tb\t1\t2\t3\n".toList, "bad\n".toList]
     (by decide) (by decide)⟩

theorem counts_replicate (n m : ℕ) (bad good : Str)
    (hbad : (parseAppsInstalled decimalFloat bad).toBool = false)
    (hgood : (parseAppsInstalled decimalFloat good).toBool = true) :
    failedCount decimalFloat (List.replicate n bad ++ List.replicate m good) = n ∧
    parsedCount decimalFloat (List.replicate n bad ++ List.replicate m good) = m := by
  constructor
  · simp [failedCount, List.countP_append, List.countP_replicate, hbad, hgood]
  · simp [parsedCount, List.countP_append, List.countP_replicate, hbad, hgood]

theorem log_replicate (n m : ℕ) (bad good : Str)
    (hbad : (parseAppsInstalled decimalFloat bad).toBool = false)
    (hgood : (parseAppsInstalled decimalFloat good).toBool = true)
    (hle : n + m ≤ 2 ^ 24) :
    (fillChannelAppDevice decimalFloat
        (List.replicate n bad ++ List.replicate m good)).log.getLast?
      = some (verdict (.finite (n : ℚ)) (.finite (m : ℚ))) := by
  obtain ⟨h1, h2, _⟩ := fillLoop_counters decimalFloat
    (List.replicate n bad ++ List.replicate m good) (by simpa using hle)
  obtain ⟨hf, hs⟩ := counts_replicate n m bad good hbad hgood
  rw [fillChannelAppDevice_log, h1, h2, hf, hs]

theorem failedCount_replicate (n : ℕ) (bad : Str)
    (hbad : (parseAppsInstalled decimalFloat bad).toBool = false) :
    failedCount decimalFloat (List.replicate n bad) = n := by
  simp [failedCount, List.countP_replicate, hbad]

theorem failedLine_replicate (n : ℕ) (bad : Str)
    (hbad : parseAppsInstalled decimalFloat bad = .error .fieldCount) :
    (fillChannelAppDevice decimalFloat (List.replicate n bad)).failedLine
      = .finite ((min n (2 ^ 24) : ℕ) : ℚ) := by
  have := foldl_fillStep_replicate_error decimalFloat bad .fieldCount hbad n
    { sent := [], failedLine := .finite 0, successLine := .finite 0, log := [] } 0
    (by simp) (by norm_num)
  rw [Nat.zero_add] at this
  exact this

theorem verdict_counterexample :
    verdict (.finite ((145101 : ℕ) : ℚ)) (.finite ((14365000 : ℕ) : ℚ))
      = .highErrorRate (.finite (10737418 / 2 ^ 30)) := by
  rw [verdict_natCast 145101 14365000 (by norm_num) (by norm_num)]
  have hq : ((145101 : ℕ) : ℚ) / ((145101 + 14365000 : ℕ) : ℚ) = 145101 / 14510101 := by
    norm_num
  rw [hq, Float32.nearest_counterexample, if_neg (lt_irrefl _)]

/-- C6, counterexample: with 145101 failed and 14365000 parsed lines the exact
ratio is below `0.01` (`100 * 145101 < 14510101`), and the verdict logged is
"high error rate", the `float32` quotient being the `float32` constant `0.01`;
and after `2^24 + 1` failed lines the counter of failed lines holds `2^24`. -/
theorem fillChannelAppDevice_verdict_counterexample :
    (failedCount decimalFloat
        (List.replicate 145101 "x".toList ++ List.replicate 14365000 "a\tb\t1\t2\t3".toList)
        = 145101 ∧
      parsedCount decimalFloat
        (List.replicate 145101 "x".toList ++ List.replicate 14365000 "a\tb\t1\t2\t3".toList)
        = 14365000 ∧
      100 * 145101 < 145101 + 14365000 ∧
      (fillChannelAppDevice decimalFloat
        (List.replicate 145101 "x".toList ++
          List.replicate 14365000 "a\tb\t1\t2\t3".toList)).log.getLast?
        = some (.highErrorRate (.finite (10737418 / 2 ^ 30)))) ∧
    (failedCount decimalFloat (List.replicate 16777217 "x".toList) = 16777217 ∧
      (fillChannelAppDevice decimalFloat (List.replicate 16777217 "x".toList)).failedLine
        = .finite ((16777216 : ℕ) : ℚ)) :=
  ⟨⟨(counts_replicate 145101 14365000 "x".toList "a\tb\t1\t2\t3".toList rfl rfl).1,
    (counts_replicate 145101 14365000 "x".toList "a\tb\t1\t2\t3".toList rfl rfl).2,
    by norm_num,
    (log_replicate 145101 14365000 "x".toList "a\tb\t1\t2\t3".toList rfl rfl
      (Nat.le_of_ble_eq_true rfl)).trans (congrArg some verdict_counterexample)⟩,
   failedCount_replicate 16777217 "x".toList rfl,
   (failedLine_replicate 16777217 "x".toList rfl).trans
     (congrArg Float32.finite (congrArg Nat.cast (Nat.min_eq_right (Nat.le_of_ble_eq_true rfl))))⟩

/-! ## Lemmas on `memcSetWithRetry` and `setToMemc` -/

theorem retryLoop_succeeds_after {F E C : Type} (cfg : Config C) (SetResult : Nat → Option E)
    (memcClient : C) (key : Str) (value : Bytes) (k : ℕ) :
    ∀ (remaining calls : ℕ) (err : Option E), k < remaining →
      (∀ i, i < k → SetResult (calls + i) ≠ none) → SetResult (calls + k) = none →
      (retryLoop (F := F) cfg SetResult memcClient key value remaining calls err).1 = none ∧
      ((retryLoop (F := F) cfg SetResult memcClient key value remaining calls err).2.filter
          WriterEvent.isSet).length = k + 1 ∧
      ((retryLoop (F := F) cfg SetResult memcClient key value remaining calls err).2.filter
          WriterEvent.isSleep).length = k := by
  induction k with
  | zero =>
    intro remaining calls err hlt _ hok
    obtain ⟨n, rfl⟩ : ∃ n, remaining = n + 1 := ⟨remaining - 1, by omega⟩
    rw [Nat.add_zero] at hok
    simp [retryLoop, hok, WriterEvent.isSet, WriterEvent.isSleep]
  | succ k ih =>
    intro remaining calls err hlt hfail hok
    obtain ⟨n, rfl⟩ : ∃ n, remaining = n + 1 := ⟨remaining - 1, by omega⟩
    have h0 := hfail 0 (by omega)
    rw [Nat.add_zero] at h0
    obtain ⟨e, he⟩ := Option.ne_none_iff_exists'.mp h0
    obtain ⟨h1, h2, h3⟩ := ih n (calls + 1) (some e) (by omega)
      (fun i hi => by
        have := hfail (i + 1) (by omega)
        rwa [show calls + (i + 1) = calls + 1 + i by omega] at this)
      (by rwa [show calls + (k + 1) = calls + 1 + k by omega] at hok)
    simp only [retryLoop, he]
    refine ⟨h1, ?_, ?_⟩
    · simp [WriterEvent.isSet, WriterEvent.isSleep, h2]
    · simp [WriterEvent.isSet, WriterEvent.isSleep, h3]

theorem retryLoop_allFail {F E C : Type} (cfg : Config C) (SetResult : Nat → Option E)
    (memcClient : C) (key : Str) (value : Bytes) (remaining : ℕ) :
    ∀ (calls : ℕ) (err : Option E), 1 ≤ remaining →
      (∀ i, i < remaining → SetResult (calls + i) ≠ none) →
      (retryLoop (F := F) cfg SetResult memcClient key value remaining calls err).1
          = SetResult (calls + remaining - 1) ∧
      ((retryLoop (F := F) cfg SetResult memcClient key value remaining calls err).2.filter
          WriterEvent.isSet).length = remaining ∧
      ((retryLoop (F := F) cfg SetResult memcClient key value remaining calls err).2.filter
          WriterEvent.isSleep).length = remaining := by
  induction remaining with
  | zero => intro calls err h; omega
  | succ n ih =>
    intro calls err _ hfail
    have h0 := hfail 0 (by omega)
    rw [Nat.add_zero] at h0
    obtain ⟨e, he⟩ := Option.ne_none_iff_exists'.mp h0
    simp only [retryLoop, he]
    rcases Nat.eq_zero_or_pos n with hn | hn
    · subst hn
      simp [retryLoop, WriterEvent.isSet, WriterEvent.isSleep, he]
    · obtain ⟨h1, h2, h3⟩ := ih (calls + 1) (some e) hn
        (fun i hi => by
          have := hfail (i + 1) (by omega)
          rwa [show calls + (i + 1) = calls + 1 + i by omega] at this)
      refine ⟨?_, ?_, ?_⟩
      · rw [h1]
        congr 1
        omega
      · simp [WriterEvent.isSet, WriterEvent.isSleep, h2]
      · simp [WriterEvent.isSet, WriterEvent.isSleep, h3]

theorem retryLoop_nil_inv {F E C : Type} (cfg : Config C) (SetResult : Nat → Option E)
    (memcClient : C) (key : Str) (value : Bytes) (remaining : ℕ) :
    ∀ (calls : ℕ) (err : Option E), 1 ≤ remaining →
      (retryLoop (F := F) cfg SetResult memcClient key value remaining calls err).1 = none →
      ∃ i, i < remaining ∧ SetResult (calls + i) = none := by
  induction remaining with
  | zero => intro calls err h; omega
  | succ n ih =>
    intro calls err _ hnil
    cases he : SetResult calls with
    | none => exact ⟨0, by omega, by simpa using he⟩
    | some e =>
      simp only [retryLoop, he] at hnil
      rcases Nat.eq_zero_or_pos n with hn | hn
      · subst hn
        simp [retryLoop] at hnil
      · obtain ⟨i, hi, hs⟩ := ih (calls + 1) (some e) hn hnil
        exact ⟨i + 1, by omega, by rwa [show calls + (i + 1) = calls + 1 + i by omega]⟩


theorem retryLoop_events {F E C : Type} (cfg : Config C) (SetResult : Nat → Option E)
    (memcClient : C) (key : Str) (value : Bytes) (remaining : ℕ) :
    ∀ (calls : ℕ) (err : Option E),
      ∀ ev ∈ (retryLoop (F := F) cfg SetResult memcClient key value remaining calls err).2,
        ev.isSet = true ∨ ev.isSleep = true := by
  induction remaining with
  | zero => intro calls err ev hev; simp [retryLoop] at hev
  | succ n ih =>
    intro calls err ev hev
    cases he : SetResult calls with
    | none =>
      simp only [retryLoop, he, List.mem_singleton] at hev
      subst hev
      exact Or.inl rfl
    | some e =>
      simp only [retryLoop, he, List.mem_cons] at hev
      rcases hev with h | h | h
      · subst h; exact Or.inl rfl
      · subst h; exact Or.inr rfl
      · exact ih (calls + 1) (some e) ev h

/-! ## The claims on `memcSetWithRetry` and `setToMemc` -/

/-- C4: when `k` is below the retry count, the first `k` `Set` attempts fail and
the next one succeeds, `memcSetWithRetry` returns nil after exactly `k + 1`
`Set` attempts and exactly `k` sleeps. -/
theorem memcSetWithRetry_succeeds_after {F E C : Type} (cfg : Config C)
    (SetResult : Nat → Option E) (calls k : ℕ) (key : Str) (value : Bytes) (memcClient : C)
    (hk : (k : Int) < cfg.retry)
    (hfail : ∀ i, i < k → SetResult (calls + i) ≠ none)
    (hok : SetResult (calls + k) = none) :
    (memcSetWithRetry (F := F) cfg SetResult calls key value memcClient).1 = none ∧
    ((memcSetWithRetry (F := F) cfg SetResult calls key value memcClient).2.filter
        WriterEvent.isSet).length = k + 1 ∧
    ((memcSetWithRetry (F := F) cfg SetResult calls key value memcClient).2.filter
        WriterEvent.isSleep).length = k := by
  unfold memcSetWithRetry
  exact retryLoop_succeeds_after cfg SetResult memcClient key value k cfg.retry.toNat calls none
    (by omega) hfail hok

/-- C4, witness: five attempts allowed, the first four fail: five `Set` calls,
four sleeps, nil. -/
theorem memcSetWithRetry_succeeds_after_witness :
    ((4 : ℕ) : Int) < (5 : Int) ∧
    (∀ i, i < 4 → (fun n => if n < 4 then some () else none : Nat → Option Unit) (0 + i) ≠ none) ∧
    (memcSetWithRetry (F := Nat) (C := Unit)
        { clients := fun _ => some (), workers := 4, retry := 5, duration := 3, dryRun := false }
        (fun n => if n < 4 then some () else none) 0 "idfa:dev".toList [1, 2] ()).1 = none ∧
    ((memcSetWithRetry (F := Nat) (C := Unit)
        { clients := fun _ => some (), workers := 4, retry := 5, duration := 3, dryRun := false }
        (fun n => if n < 4 then some () else none) 0 "idfa:dev".toList [1, 2] ()).2.filter
        WriterEvent.isSet).length = 4 + 1 ∧
    ((memcSetWithRetry (F := Nat) (C := Unit)
        { clients := fun _ => some (), workers := 4, retry := 5, duration := 3, dryRun := false }
        (fun n => if n < 4 then some () else none) 0 "idfa:dev".toList [1, 2] ()).2.filter
        WriterEvent.isSleep).length = 4 :=
  ⟨by decide, by intro i hi; simp [hi],
   memcSetWithRetry_succeeds_after (F := Nat) (C := Unit)
     { clients := fun _ => some (), workers := 4, retry := 5, duration := 3, dryRun := false }
     (fun n => if n < 4 then some () else none) 0 4 "idfa:dev".toList [1, 2] ()
     (by decide) (by intro i hi; simp [hi]) (by simp)⟩

/-- C5, as amended: for a retry count of at least one, when every `Set` attempt
fails `memcSetWithRetry` makes exactly that many attempts (and as many sleeps)
and returns the error of the last one, which is not nil, and `setToMemc` logs
the two failure lines, the second with that error, and goes on with the next
record; and `memcSetWithRetry` returns nil only if one of its `Set` attempts
returned nil. -/
theorem memcSetWithRetry_allFail {F E C : Type} (cfg : Config C)
    (Marshal : F → F → List Nat → Except E Bytes) (SetResult : Nat → Option E) (calls : ℕ)
    (hpos : 1 ≤ cfg.retry) :
    (∀ (key : Str) (value : Bytes) (memcClient : C),
      (∀ i, SetResult (calls + i) ≠ none) →
        ((memcSetWithRetry (F := F) cfg SetResult calls key value memcClient).2.filter
          WriterEvent.isSet).length = cfg.retry.toNat ∧
        ((memcSetWithRetry (F := F) cfg SetResult calls key value memcClient).2.filter
          WriterEvent.isSleep).length = cfg.retry.toNat ∧
        (memcSetWithRetry (F := F) cfg SetResult calls key value memcClient).1
          = SetResult (calls + cfg.retry.toNat - 1) ∧
        (memcSetWithRetry (F := F) cfg SetResult calls key value memcClient).1 ≠ none) ∧
    (∀ (app : deviceApps F) (rest : List (deviceApps F)) (memcClient : C),
      cfg.clients app.devType = some memcClient → cfg.dryRun = false →
      (∀ i, SetResult (calls + i) ≠ none) →
        ∃ evs err, SetResult (calls + cfg.retry.toNat - 1) = some err ∧
          (evs.filter WriterEvent.isSet).length = cfg.retry.toNat ∧
          (∀ ev ∈ evs, ev ≠ .logMemcError app.devType ∧ ev ≠ .logError err) ∧
          setToMemc cfg Marshal SetResult calls (app :: rest) =
            evs ++ [.logMemcError app.devType, .logError err] ++
              setToMemc cfg Marshal SetResult (calls + cfg.retry.toNat) rest) ∧
    (∀ (key : Str) (value : Bytes) (memcClient : C),
      (memcSetWithRetry (F := F) cfg SetResult calls key value memcClient).1 = none →
        ∃ i : ℕ, (i : Int) < cfg.retry ∧ SetResult (calls + i) = none) := by
  have hR : 1 ≤ cfg.retry.toNat := by omega
  refine ⟨?_, ?_, ?_⟩
  · intro key value memcClient hfail
    obtain ⟨h1, h2, h3⟩ := retryLoop_allFail (F := F) cfg SetResult memcClient key value
      cfg.retry.toNat calls none hR (fun i _ => hfail i)
    refine ⟨h2, h3, h1, ?_⟩
    unfold memcSetWithRetry
    rw [h1, show calls + cfg.retry.toNat - 1 = calls + (cfg.retry.toNat - 1) by omega]
    exact hfail _
  · intro app rest memcClient hclient hdry hfail
    have hloop := fun value => retryLoop_allFail (F := F) cfg SetResult memcClient
      (app.devType ++ [':'] ++ app.devId) value cfg.retry.toNat calls none hR
      (fun i _ => hfail i)
    have hevs := fun value => retryLoop_events (F := F) cfg SetResult memcClient
      (app.devType ++ [':'] ++ app.devId) value cfg.retry.toNat calls none
    have hlast : SetResult (calls + cfg.retry.toNat - 1) ≠ none := by
      rw [show calls + cfg.retry.toNat - 1 = calls + (cfg.retry.toNat - 1) by omega]
      exact hfail _
    obtain ⟨err, herr⟩ := Option.ne_none_iff_exists'.mp hlast
    cases hm : Marshal app.lat app.lon app.apps with
    | ok bytes =>
      obtain ⟨h1, h2, _⟩ := hloop bytes
      refine ⟨(memcSetWithRetry (F := F) cfg SetResult calls
        (app.devType ++ [':'] ++ app.devId) bytes memcClient).2, err, herr, h2, ?_, ?_⟩
      · intro ev hev
        rcases hevs bytes ev hev with h | h <;> constructor <;> intro hc <;>
          (rw [hc] at h; simp [WriterEvent.isSet, WriterEvent.isSleep] at h)
      simp only [setToMemc, setToMemcStep, hclient, hm, hdry]
      have h1' : (memcSetWithRetry (F := F) cfg SetResult calls
          (app.devType ++ [':'] ++ app.devId) bytes memcClient).1 = some err := by
        unfold memcSetWithRetry
        rw [h1, herr]
      have h2' : ((memcSetWithRetry (F := F) cfg SetResult calls
          (app.devType ++ [':'] ++ app.devId) bytes memcClient).2.filter
            WriterEvent.isSet).length = cfg.retry.toNat := h2
      simp only [h1', h2', List.nil_append, Bool.false_eq_true, if_false]
    | error e =>
      obtain ⟨h1, h2, _⟩ := hloop []
      refine ⟨.logMarshalError e :: (memcSetWithRetry (F := F) cfg SetResult calls
        (app.devType ++ [':'] ++ app.devId) [] memcClient).2, err, herr, ?_, ?_, ?_⟩
      · simpa [WriterEvent.isSet] using h2
      · intro ev hev
        rcases List.mem_cons.mp hev with h | h
        · subst h
          exact ⟨by simp, by simp⟩
        · rcases hevs [] ev h with h | h <;> constructor <;> intro hc <;>
            (rw [hc] at h; simp [WriterEvent.isSet, WriterEvent.isSleep] at h)
      simp only [setToMemc, setToMemcStep, hclient, hm, hdry]
      have h1' : (memcSetWithRetry (F := F) cfg SetResult calls
          (app.devType ++ [':'] ++ app.devId) [] memcClient).1 = some err := by
        unfold memcSetWithRetry
        rw [h1, herr]
      have h2' : ((memcSetWithRetry (F := F) cfg SetResult calls
          (app.devType ++ [':'] ++ app.devId) [] memcClient).2.filter
            WriterEvent.isSet).length = cfg.retry.toNat := h2
      simp only [h1', h2', List.singleton_append, List.cons_append, List.nil_append,
        Bool.false_eq_true, if_false]
  · intro key value memcClient hnil
    obtain ⟨i, hi, hs⟩ := retryLoop_nil_inv (F := F) cfg SetResult memcClient key value
      cfg.retry.toNat calls none hR hnil
    exact ⟨i, by omega, hs⟩

/-- C5, witness: five attempts allowed and a client whose `i`-th `Set` call
fails with the error `i`: five `Set` calls, five sleeps, and the error 4 of the
last attempt returned. -/
theorem memcSetWithRetry_allFail_witness :
    (1 : Int) ≤ (defaultConfig 5 false).retry ∧
    ((memcSetWithRetry (F := Nat) (defaultConfig 5 false) (fun n => some n) 0
        "idfa:dev".toList [1, 2] ("127.0.0.1:33013".toList, 500)).2.filter
        WriterEvent.isSet).length = (defaultConfig 5 false).retry.toNat ∧
    ((memcSetWithRetry (F := Nat) (defaultConfig 5 false) (fun n => some n) 0
        "idfa:dev".toList [1, 2] ("127.0.0.1:33013".toList, 500)).2.filter
        WriterEvent.isSleep).length = (defaultConfig 5 false).retry.toNat ∧
    (memcSetWithRetry (F := Nat) (defaultConfig 5 false) (fun n => some n) 0
        "idfa:dev".toList [1, 2] ("127.0.0.1:33013".toList, 500)).1
      = (fun n => some n : Nat → Option Nat) (0 + (defaultConfig 5 false).retry.toNat - 1) ∧
    (memcSetWithRetry (F := Nat) (defaultConfig 5 false) (fun n => some n) 0
        "idfa:dev".toList [1, 2] ("127.0.0.1:33013".toList, 500)).1 ≠ none :=
  ⟨by decide,
   (memcSetWithRetry_allFail (F := Nat) (defaultConfig 5 false) listMarshal (fun n => some n) 0
      (by decide)).1 "idfa:dev".toList [1, 2] ("127.0.0.1:33013".toList, 500)
      (fun _ => by simp)⟩

/-- C5, counterexample: with the retry count 0 and a client whose every `Set`
attempt fails, `memcSetWithRetry` makes no attempt and returns nil, and
`setToMemc` logs nothing for the record. -/
theorem memcSetWithRetry_allFail_counterexample :
    (∀ i : Nat, (fun _ => some () : Nat → Option Unit) i ≠ none) ∧
    memcSetWithRetry (F := Nat) (defaultConfig 0 false) (fun _ => some ()) 0
        "idfa:dev".toList [1, 2] ("127.0.0.1:33013".toList, 500) = (none, []) ∧
    setToMemc (defaultConfig 0 false) listMarshal (fun _ => some ()) 0
        [{ devType := "idfa".toList, devId := "dev".toList, lat := 1, lon := 2, apps := [] }]
      = [] :=
  ⟨fun _ => by simp, rfl, rfl⟩

/-- C9: under dry-run, whatever the records a writer worker receives, none of
its events is a `Set` call or a sleep; and when the codec fails on none of the
records with a known device type, the events are exactly one log line for each
record, in order: the key and the record, or "Unknown device type". -/
theorem setToMemc_dryRun {F E C : Type} (cfg : Config C)
    (Marshal : F → F → List Nat → Except E Bytes) (SetResult : Nat → Option E)
    (records : List (deviceApps F)) (hdry : cfg.dryRun = true) (calls : ℕ) :
    (∀ ev ∈ setToMemc cfg Marshal SetResult calls records,
      ev.isSet = false ∧ ev.isSleep = false ∧ ev.isLog = true) ∧
    ((∀ app ∈ records, cfg.clients app.devType ≠ none →
        ∃ bytes, Marshal app.lat app.lon app.apps = .ok bytes) →
      setToMemc cfg Marshal SetResult calls records =
        records.map (fun app =>
          match cfg.clients app.devType with
          | none => .logUnknownDevice
          | some _ => .logDryRun (app.devType ++ [':'] ++ app.devId) app)) := by
  induction records generalizing calls with
  | nil => simp [setToMemc]
  | cons app rest ih =>
    constructor
    · intro ev hev
      simp only [setToMemc, List.mem_append] at hev
      rcases hev with hev | hev
      · unfold setToMemcStep at hev
        cases hc : cfg.clients app.devType with
        | none =>
          simp only [hc, List.mem_singleton] at hev
          subst hev
          exact ⟨rfl, rfl, rfl⟩
        | some client =>
          cases hm : Marshal app.lat app.lon app.apps with
          | ok bytes =>
            simp only [hc, hm, hdry, if_true, List.nil_append, List.mem_singleton] at hev
            subst hev
            exact ⟨rfl, rfl, rfl⟩
          | error e =>
            simp only [hc, hm, hdry, if_true, List.singleton_append, List.mem_cons,
              List.mem_singleton, List.not_mem_nil, or_false] at hev
            rcases hev with hev | hev <;> subst hev <;> exact ⟨rfl, rfl, rfl⟩
      · exact (ih _).1 ev hev
    · intro hcodec
      have hrest := (ih (setToMemcStep cfg Marshal SetResult calls app).1).2
        (fun a ha => hcodec a (List.mem_cons_of_mem _ ha))
      simp only [setToMemc, List.map_cons]
      rw [hrest]
      unfold setToMemcStep
      cases hc : cfg.clients app.devType with
      | none => rfl
      | some client =>
        obtain ⟨bytes, hm⟩ := hcodec app (List.mem_cons_self _ _) (by simp [hc])
        simp only [hm, hdry, if_true, List.nil_append]
        rfl

/-- C9, witness: a record of a known and one of an unknown device type. -/
theorem setToMemc_dryRun_witness :
    (defaultConfig 5 true).dryRun = true ∧
    (∀ ev ∈ setToMemc (defaultConfig 5 true) listMarshal (fun _ => some ()) 0
        [{ devType := "idfa".toList, devId := "dev".toList, lat := 1, lon := 2, apps := [3] },
         { devType := "zzzz".toList, devId := "dev".toList, lat := 1, lon := 2, apps := [3] }],
      ev.isSet = false ∧ ev.isSleep = false ∧ ev.isLog = true) ∧
    setToMemc (defaultConfig 5 true) listMarshal (fun _ => some ()) 0
        [{ devType := "idfa".toList, devId := "dev".toList, lat := 1, lon := 2, apps := [3] },
         { devType := "zzzz".toList, devId := "dev".toList, lat := 1, lon := 2, apps := [3] }]
      = [.logDryRun "idfa:dev".toList
          { devType := "idfa".toList, devId := "dev".toList, lat := 1, lon := 2, apps := [3] },
         .logUnknownDevice] :=
  ⟨rfl,
   (setToMemc_dryRun (defaultConfig 5 true) listMarshal (fun _ => some ())
      [{ devType := "idfa".toList, devId := "dev".toList, lat := 1, lon := 2, apps := [3] },
       { devType := "zzzz".toList, devId := "dev".toList, lat := 1, lon := 2, apps := [3] }]
      rfl 0).1,
   rfl⟩


/-! ## `readFileToChan` and `dotRenameFile`: lemmas and claims -/

theorem ReadString_length (data line rest : Str) (h : ReadString data = some (line, rest)) :
    rest.length < data.length := by
  induction data generalizing line rest with
  | nil => simp [ReadString] at h
  | cons c cs ih =>
    unfold ReadString at h
    split_ifs at h with hc
    · injection h with h
      injection h with _ h2
      subst h2
      simp
    · cases hr : ReadString cs with
      | none => simp [hr] at h
      | some p =>
        obtain ⟨l, r⟩ := p
        simp only [hr] at h
        injection h with h
        injection h with _ h2
        subst h2
        have := ih l r hr
        simp only [List.length_cons]
        omega

/-- The loop of `readFileToChan` ends when the fuel exceeds the length of the
data, and none of its events is a rename. -/
theorem readLoop_total (filePath : Str) (err : ReadError) :
    ∀ (fuel : ℕ) (data : Str) (count : ℕ), data.length < fuel →
      ∃ evs, readLoop filePath err fuel data count = some evs ∧
        ∀ o n, IngestEvent.rename o n ∉ evs := by
  intro fuel
  induction fuel with
  | zero => intro data count h; omega
  | succ fuel ih =>
    intro data count hlen
    unfold readLoop
    cases hr : ReadString data with
    | none =>
      refine ⟨readEnd filePath err count, rfl, ?_⟩
      intro o n hmem
      cases err <;> simp [readEnd] at hmem
    | some p =>
      obtain ⟨line, rest⟩ := p
      have hlt := ReadString_length data line rest hr
      simp only []
      split_ifs
      · obtain ⟨evs, hevs, hno⟩ := ih rest (count + 1) (by omega)
        refine ⟨.send line :: evs, by simp [hevs], ?_⟩
        intro o n hmem
        rcases List.mem_cons.mp hmem with h | h
        · cases h
        · exact hno o n h
      · exact ih rest count (by omega)

theorem Split_ne_nil (sep : Char) (s : Str) : Split sep s ≠ [] := by
  cases s with
  | nil => simp [Split]
  | cons c cs =>
    unfold Split
    split_ifs
    · simp
    · split <;> simp

theorem Split_cons_ne (sep c : Char) (cs p : Str) (ps : List Str) (hc : ¬c = sep)
    (h : Split sep cs = p :: ps) : Split sep (c :: cs) = (c :: p) :: ps := by
  rw [Split, if_neg hc, h]

theorem ReadString_none (data : Str) (h : ReadString data = none) :
    Split '\n' data = [data] := by
  induction data with
  | nil => rfl
  | cons c cs ih =>
    unfold ReadString at h
    split_ifs at h with hc
    cases hr : ReadString cs with
    | none =>
      unfold Split
      rw [if_neg hc, ih hr]
    | some p => simp [hr] at h

theorem ReadString_some (data line rest : Str) (h : ReadString data = some (line, rest)) :
    ∃ p, line = p ++ ['\n'] ∧ Split '\n' data = p :: Split '\n' rest := by
  induction data generalizing line with
  | nil => simp [ReadString] at h
  | cons c cs ih =>
    unfold ReadString at h
    split_ifs at h with hc
    · injection h with h
      injection h with h1 h2
      subst h1 h2 hc
      exact ⟨[], rfl, by simp [Split]⟩
    · cases hr : ReadString cs with
      | none => simp [hr] at h
      | some q =>
        obtain ⟨l, r⟩ := q
        simp only [hr] at h
        injection h with h
        injection h with h1 h2
        subst h1 h2
        obtain ⟨p, hp, hsplit⟩ := ih l hr
        exact ⟨c :: p, by simp [hp], Split_cons_ne '\n' c cs p _ hc hsplit⟩

theorem terminatedLines_of_none (data : Str) (h : ReadString data = none) :
    terminatedLines data = [] := by
  simp [terminatedLines, ReadString_none data h]

theorem terminatedLines_of_some (data line rest : Str)
    (h : ReadString data = some (line, rest)) :
    terminatedLines data = line :: terminatedLines rest := by
  obtain ⟨p, hp, hsplit⟩ := ReadString_some data line rest h
  unfold terminatedLines
  rw [hsplit]
  obtain ⟨q, qs, hq⟩ := List.exists_cons_of_ne_nil (Split_ne_nil '\n' rest)
  rw [hq, List.dropLast_cons₂, List.map_cons, hp]

/-- What the loop of `readFileToChan` does: it sends the newline-terminated
lines of the data, each with its newline and empty lines included, in order,
and ends with the number of lines sent; the text after the last newline is
sent nowhere. -/
theorem readLoop_sent (filePath : Str) (err : ReadError) :
    ∀ (fuel : ℕ) (data : Str) (count : ℕ), data.length < fuel →
      readLoop filePath err fuel data count =
        some ((terminatedLines data).map IngestEvent.send ++
          readEnd filePath err (count + (terminatedLines data).length)) := by
  intro fuel
  induction fuel with
  | zero => intro data count h; omega
  | succ fuel ih =>
    intro data count hlen
    unfold readLoop
    cases hr : ReadString data with
    | none => simp [terminatedLines_of_none data hr]
    | some p =>
      obtain ⟨line, rest⟩ := p
      have hlt := ReadString_length data line rest hr
      obtain ⟨q, hq, _⟩ := ReadString_some data line rest hr
      have hpos : line.length > 0 := by simp [hq]
      simp only []
      rw [if_pos hpos, ih rest (count + 1) (by omega), terminatedLines_of_some data line rest hr]
      simp only [Option.map_some', List.map_cons, List.cons_append, List.length_cons]
      congr 4
      omega

theorem readFileToChan_sent (filePath : Str) (data : Str) (err : ReadError) :
    readFileToChan filePath (.stream data err) =
      some (.logReadFile filePath :: ((terminatedLines data).map IngestEvent.send ++
        readEnd filePath err (terminatedLines data).length), .returned) := by
  simp [readFileToChan, readLoop_sent filePath err (data.length + 1) data 0 (by omega)]

/-- C7, as amended: for every file whose stream opens, whether the stream ends
at a clean end-of-stream or fails mid-stream, the ingestion task finishes, and
it calls `os.Rename` from the file path to the base name prefixed with a dot in
the same directory if and only if dry-run is off; under dry-run it makes no
rename call at all. -/
theorem ingestTask_rename (renameFails : Bool) (filePath : Str) (dryRun : Bool) (data : Str)
    (err : ReadError) :
    ∃ evs, ingestTask renameFails filePath dryRun (.stream data err) = some (evs, .returned) ∧
      (IngestEvent.rename filePath
          (filepathJoin (filepathSplit filePath).1 ('.' :: (filepathSplit filePath).2)) ∈ evs
        ↔ dryRun = false) ∧
      (dryRun = true → ∀ o n, IngestEvent.rename o n ∉ evs) := by
  obtain ⟨evs, hevs, hno⟩ := readLoop_total filePath err (data.length + 1) data 0 (by omega)
  have hno' : ∀ o n, IngestEvent.rename o n ∉ IngestEvent.logReadFile filePath :: evs := by
    intro o n hmem
    rcases List.mem_cons.mp hmem with h | h
    · cases h
    · exact hno o n h
  refine ⟨(IngestEvent.logReadFile filePath :: evs) ++ dotRenameFile renameFails filePath dryRun,
    by simp [ingestTask, readFileToChan, hevs], ?_, ?_⟩
  · cases dryRun with
    | true =>
      have hd : dotRenameFile renameFails filePath true = [] := by simp [dotRenameFile]
      rw [hd, List.append_nil]
      constructor
      · intro h; exact absurd h (hno' _ _)
      · intro h; cases h
    | false =>
      simp [dotRenameFile]
  · intro hd o n
    subst hd
    have hd : dotRenameFile renameFails filePath true = [] := by simp [dotRenameFile]
    rw [hd, List.append_nil]
    exact hno' o n

/-- C7, counterexample: dry-run is off and the stream fails with an error other
than end-of-stream after one line; the task still renames the file. -/
theorem ingestTask_rename_counterexample :
    ingestTask false "data/a.tsv.gz".toList false (.stream "a\tb\t1\t2\t3\n".toList .other) =
      some ([.logReadFile "data/a.tsv.gz".toList, .send "a\tb\t1\t2\t3\n".toList, .printError,
             .rename "data/a.tsv.gz".toList "data/.a.tsv.gz".toList], .returned) := by
  decide

/-- C8, the code at the failing input: of the content `a`, newline, newline, `b`
the reader hands over `a` with its newline and then the empty line as a lone
newline, logs two lines, and never hands over `b`; the non-empty lines of the
content are `a` and `b`. -/
theorem readFileToChan_lines_counterexample :
    readFileToChan "f.gz".toList (.stream "a\n\nb".toList .eof) =
      some ([.logReadFile "f.gz".toList, .send "a\n".toList, .send "\n".toList,
             .logLinesRead 2 "f.gz".toList], .returned) ∧
    nonEmptyLines "a\n\nb".toList = ["a".toList, "b".toList] := by
  decide


/-! ## The end of a run -/

theorem Run.step_recordChan {F : Type} (ParseFloat : Str → Option F) (s s' : Run F)
    (a : Action) (h : s.step ParseFloat a = some s')
    (hopen : s.recordChanClosed = false) (hw : ∀ w ∈ s.workers, w ≠ .done) :
    s'.recordChanClosed = false ∧ ∀ w ∈ s'.workers, w ≠ .done := by
  have hset : ∀ (j : Nat) (p : WorkerPc F), p ≠ .done → ∀ w ∈ s.workers.set j p, w ≠ .done := by
    intro j p hp w hmem
    rcases List.mem_or_eq_of_mem_set hmem with h1 | h1
    · exact hw w h1
    · rw [h1]; exact hp
  cases a with
  | sendLine i =>
    simp only [Run.step] at h
    split at h <;> first | (injection h with h; subst h; exact ⟨hopen, hw⟩) | cases h
  | ingestDone i =>
    simp only [Run.step] at h
    split at h <;> first | (injection h with h; subst h; exact ⟨hopen, hw⟩) | cases h
  | mainWait =>
    simp only [Run.step] at h
    split at h
    · split_ifs at h
      injection h with h; subst h; exact ⟨hopen, hw⟩
    · cases h
  | mainClose =>
    simp only [Run.step] at h
    split at h <;> first | (injection h with h; subst h; exact ⟨hopen, hw⟩) | cases h
  | mainReturn =>
    simp only [Run.step] at h
    split at h <;> first | (injection h with h; subst h; exact ⟨hopen, hw⟩) | cases h
  | deliver j =>
    simp only [Run.step] at h
    split at h
    · cases h
    · injection h with h; subst h
      exact ⟨hopen, hset j _ (by simp)⟩
    · cases h
  | parserReturn =>
    simp only [Run.step] at h
    split at h
    · cases h
    · split_ifs at h
      injection h with h; subst h; exact ⟨hopen, hw⟩
    · cases h
  | handle j =>
    simp only [Run.step] at h
    split at h
    · cases h
    · injection h with h; subst h
      exact ⟨hopen, hset j _ (by simp)⟩
    · cases h
  | workerReturn j =>
    simp only [Run.step] at h
    split at h
    · cases h
    · rw [hopen] at h
      simp at h
    · cases h

/-- In no run is `channelAppDevice` closed, and no worker leaves its loop. -/
theorem Run.exec_recordChan {F : Type} (ParseFloat : Str → Option F) (as : List Action) :
    ∀ (s s' : Run F), Run.exec ParseFloat s as = some s' →
      s.recordChanClosed = false → (∀ w ∈ s.workers, w ≠ .done) →
      s'.recordChanClosed = false ∧ ∀ w ∈ s'.workers, w ≠ .done := by
  induction as with
  | nil =>
    intro s s' h hopen hw
    simp only [Run.exec] at h
    injection h with h
    subst h
    exact ⟨hopen, hw⟩
  | cons a as ih =>
    intro s s' h hopen hw
    simp only [Run.exec] at h
    cases hs : s.step ParseFloat a with
    | none => simp [hs] at h
    | some s1 =>
      simp only [hs] at h
      obtain ⟨h1, h2⟩ := Run.step_recordChan ParseFloat s s1 a hs hopen hw
      exact ih s1 s' h h1 h2

theorem Run.init_recordChan {F : Type} (ParseFloat : Str → Option F) (files : List (List Str))
    (workers : Nat) (as : List Action) (s : Run F)
    (h : Run.exec ParseFloat (Run.init files workers) as = some s) :
    s.recordChanClosed = false ∧ ∀ w ∈ s.workers, w ≠ .done := by
  apply Run.exec_recordChan ParseFloat as (Run.init files workers) s h rfl
  intro w hw
  simp only [Run.init] at hw
  rw [List.eq_of_mem_replicate hw]
  simp

/-- C10, the code at the failing input: one file of one line and four workers.
The file goroutine hands its line to the parser and finishes, `wp.Wait()`
returns, `main` closes the line channel, logs the execution time and returns:
the process ends with the parser still holding the record at its send, the
verdict not logged, `channelAppDevice` open, every worker still at the start of
its loop and no record handled. And when a worker does receive the record
before `main` returns, the process ends with the worker inside the body of its
loop, the record not handled, the verdict not logged. -/
theorem Run.main_returns_early :
    Run.exec decimalFloat (Run.init [["idfa\tdev\t55\t42\t1,2\n".toList]] 4)
        [.sendLine 0, .ingestDone 0, .mainWait, .mainClose, .mainReturn] =
      some { ingest := [.done],
             main := .exited,
             parser := .sending { devType := "idfa".toList, devId := "dev".toList, lat := 55,
                                  lon := 42, apps := [1, 2] },
             workers := [.receiving, .receiving, .receiving, .receiving],
             lineChanClosed := true,
             recordChanClosed := false,
             handled := [] } ∧
    Run.exec decimalFloat (Run.init [["idfa\tdev\t55\t42\t1,2\n".toList]] 4)
        [.sendLine 0, .deliver 2, .ingestDone 0, .mainWait, .mainClose, .mainReturn] =
      some { ingest := [.done],
             main := .exited,
             parser := .receiving,
             workers := [.receiving, .receiving,
                         .handling { devType := "idfa".toList, devId := "dev".toList, lat := 55,
                                     lon := 42, apps := [1, 2] },
                         .receiving],
             lineChanClosed := true,
             recordChanClosed := false,
             handled := [] } :=
  ⟨rfl, rfl⟩

end Hm15
